import Mathlib

/-!
Verification of the Stundenrapport time-sheet grid model.

Strings from the TypeScript source are embedded as `List Char`; JavaScript
numbers (always small non-negative integers here) are embedded as `Nat` or
`Int` as appropriate.  Every definition below is translated from
`src/src/app/page.tsx` unless its doc comment says `Modelled from the spec:`.
-/

namespace Stunden

/-- The whitespace characters removed by JavaScript `String.prototype.trim`
(the ASCII subset plus NBSP; the source only ever meets ASCII whitespace). -/
def isJsSpace (c : Char) : Bool :=
  c = ' ' || c = '\t' || c = '\n' || c = '\r' || c = '\x0b' || c = '\x0c' || c = ' '

/-- Embedding of JavaScript `s.trim()`: drop whitespace from both ends. -/
def jsTrim (s : List Char) : List Char :=
  ((s.dropWhile isJsSpace).reverse.dropWhile isJsSpace).reverse

/-- Numeric value of a decimal digit character. -/
def digitVal (c : Char) : Nat := c.toNat - '0'.toNat

/-- `parseInt(d, 10)` on a list of decimal digit characters. -/
def digitsVal (l : List Char) : Nat := l.foldl (fun a c => 10 * a + digitVal c) 0

/-- The regex match `^(\d{1,2}):(\d{2})$` from `parseTime` (src line 42),
returning `(parseInt(match[1]), parseInt(match[2]))` on success.  The two
branches are the one- and two-digit hour shapes. -/
def timeMatch : List Char → Option (Nat × Nat)
  | [h1, c, m1, m2] =>
    if c = ':' && h1.isDigit && m1.isDigit && m2.isDigit then
      some (digitVal h1, 10 * digitVal m1 + digitVal m2)
    else none
  | [h1, h2, c, m1, m2] =>
    if c = ':' && h1.isDigit && h2.isDigit && m1.isDigit && m2.isDigit then
      some (10 * digitVal h1 + digitVal h2, 10 * digitVal m1 + digitVal m2)
    else none
  | _ => none

/-- The `{hours, minutes}` record returned by `parseTime`. -/
structure Time where
  hours : Nat
  minutes : Nat
deriving DecidableEq, Repr

/-- Embedding of `parseTime` (src lines 40-51).  The source's
`!timeStr || !timeStr.trim()` guard is the emptiness test on the trimmed
string (an empty `timeStr` trims to empty); the `h >= 0 && m >= 0` checks are
vacuous over `Nat` digits and are omitted. -/
def parseTime (s : List Char) : Option Time :=
  if (jsTrim s).isEmpty then none
  else
    match timeMatch (jsTrim s) with
    | some (h, m) => if h ≤ 23 && m ≤ 59 then some ⟨h, m⟩ else none
    | none => none

/-- Embedding of `calculateMinutes` (src lines 53-67); `startMin`/`endMin`
are inlined. -/
def calculateMinutes (von bis : List Char) : Int :=
  match parseTime von, parseTime bis with
  | some start, some stop =>
    if (start.hours * 60 + start.minutes : Int) ≤ stop.hours * 60 + stop.minutes then
      (stop.hours * 60 + stop.minutes : Int) - (start.hours * 60 + start.minutes)
    else (24 * 60 - (start.hours * 60 + start.minutes : Int)) + (stop.hours * 60 + stop.minutes)
  | _, _ => 0

/-- The language of the anchored regex `^(\d{1,2}):(\d{2})$`, stated
declaratively: `t` decomposes as one or two digits, a colon, and exactly two
digits, with `h` and `m` the decimal values of the two groups. -/
def TimePat (t : List Char) (h m : Nat) : Prop :=
  ∃ hs ms, t = hs ++ ':' :: ms ∧ (∀ c ∈ hs, c.isDigit) ∧
    1 ≤ hs.length ∧ hs.length ≤ 2 ∧
    (∀ c ∈ ms, c.isDigit) ∧ ms.length = 2 ∧ digitsVal hs = h ∧ digitsVal ms = m

/-- Canonical rendering of a time as `H:MM` (hour unpadded, minute
two-digit), covering exactly the strings from `0:00` to `23:59`. -/
def renderTime (h m : Nat) : List Char :=
  (Nat.repr h).data ++ ':' :: ((if m < 10 then ['0'] else []) ++ (Nat.repr m).data)

theorem timeMatch_eq_some_iff (t : List Char) (h m : Nat) :
    timeMatch t = some (h, m) ↔ TimePat t h m := by
  constructor
  · intro hEq
    rcases t with _ | ⟨a, _ | ⟨b, _ | ⟨c, _ | ⟨d, _ | ⟨e, _ | ⟨f, rest⟩⟩⟩⟩⟩⟩
    · simp [timeMatch] at hEq
    · simp [timeMatch] at hEq
    · simp [timeMatch] at hEq
    · simp [timeMatch] at hEq
    · simp only [timeMatch] at hEq
      split at hEq
      · next hc =>
        simp only [Bool.and_eq_true, decide_eq_true_eq] at hc
        obtain ⟨⟨⟨hb, ha⟩, hcdig⟩, hddig⟩ := hc
        subst hb
        injection hEq with hEq
        have hh : digitVal a = h := congrArg Prod.fst hEq
        have hm : 10 * digitVal c + digitVal d = m := congrArg Prod.snd hEq
        refine ⟨[a], [c, d], rfl, ?_, ?_, ?_, ?_, ?_, ?_, ?_⟩
        · simpa using ha
        · simp
        · simp
        · simpa using ⟨hcdig, hddig⟩
        · simp
        · simp only [digitsVal, digitVal, List.foldl] at hh ⊢; omega
        · simp only [digitsVal, digitVal, List.foldl] at hm ⊢; omega
      · exact absurd hEq (by simp)
    · simp only [timeMatch] at hEq
      split at hEq
      · next hc =>
        simp only [Bool.and_eq_true, decide_eq_true_eq] at hc
        obtain ⟨⟨⟨⟨hcol, ha⟩, hb⟩, hd⟩, he⟩ := hc
        subst hcol
        injection hEq with hEq
        have hh : 10 * digitVal a + digitVal b = h := congrArg Prod.fst hEq
        have hm : 10 * digitVal d + digitVal e = m := congrArg Prod.snd hEq
        refine ⟨[a, b], [d, e], rfl, ?_, ?_, ?_, ?_, ?_, ?_, ?_⟩
        · simpa using ⟨ha, hb⟩
        · simp
        · simp
        · simpa using ⟨hd, he⟩
        · simp
        · simp only [digitsVal, digitVal, List.foldl] at hh ⊢; omega
        · simp only [digitsVal, digitVal, List.foldl] at hm ⊢; omega
      · exact absurd hEq (by simp)
    · simp [timeMatch] at hEq
  · rintro ⟨hs, ms, ht, hdig, h1, h2, mdig, hms2, hh, hm⟩
    obtain ⟨m1, m2, rfl⟩ := List.length_eq_two.mp hms2
    have hm1 : m1.isDigit := mdig m1 (by simp)
    have hm2 : m2.isDigit := mdig m2 (by simp)
    rcases hs with _ | ⟨x, _ | ⟨y, _ | ⟨z, rest⟩⟩⟩
    · simp at h1
    · have hx : x.isDigit := hdig x (by simp)
      subst ht
      show timeMatch [x, ':', m1, m2] = some (h, m)
      simp only [digitsVal, digitVal, List.foldl] at hh hm
      simp [timeMatch, hx, hm1, hm2, digitVal]
      have h48 : '0'.toNat = 48 := rfl
      omega
    · have hx : x.isDigit := hdig x (by simp)
      have hy : y.isDigit := hdig y (by simp)
      subst ht
      show timeMatch [x, y, ':', m1, m2] = some (h, m)
      simp only [digitsVal, digitVal, List.foldl] at hh hm
      simp [timeMatch, hx, hy, hm1, hm2, digitVal]
      have h48 : '0'.toNat = 48 := rfl
      omega
    · simp at h2

theorem timeMatch_nil : timeMatch [] = none := rfl

theorem parseTime_eq_some_match (s : List Char) (h m : Nat) :
    parseTime s = some ⟨h, m⟩ ↔
      timeMatch (jsTrim s) = some (h, m) ∧ h ≤ 23 ∧ m ≤ 59 := by
  unfold parseTime
  by_cases he : (jsTrim s).isEmpty
  · rw [List.isEmpty_iff.mp he]
    simp [timeMatch]
  · rcases htm : timeMatch (jsTrim s) with _ | ⟨h', m'⟩
    · simp [he, htm]
    · simp only [he, htm, if_false, Bool.false_eq_true]
      by_cases hb : h' ≤ 23 ∧ m' ≤ 59
      · have hcond : (decide (h' ≤ 23) && decide (m' ≤ 59)) = true := by
          simp [hb.1, hb.2]
        rw [hcond, if_pos rfl]
        constructor
        · intro hx
          have h2 := Option.some.inj hx
          have e1 : h' = h := congrArg Time.hours h2
          have e2 : m' = m := congrArg Time.minutes h2
          subst e1
          subst e2
          exact ⟨rfl, hb.1, hb.2⟩
        · rintro ⟨hx, -, -⟩
          have h2 := Option.some.inj hx
          have e1 : h' = h := congrArg Prod.fst h2
          have e2 : m' = m := congrArg Prod.snd h2
          subst e1
          subst e2
          rfl
      · have hcond : (decide (h' ≤ 23) && decide (m' ≤ 59)) = false := by
          by_cases h23 : h' ≤ 23
          · have h59 : ¬ m' ≤ 59 := fun hx => hb ⟨h23, hx⟩
            simp [h59]
          · simp [h23]
        rw [hcond]
        constructor
        · intro hx
          exact absurd hx (by simp)
        · rintro ⟨hx, hh23, hm59⟩
          have h2 := Option.some.inj hx
          have e1 : h' = h := congrArg Prod.fst h2
          have e2 : m' = m := congrArg Prod.snd h2
          subst e1
          subst e2
          exact absurd ⟨hh23, hm59⟩ hb

theorem parseTime_eq_some_iff (s : List Char) (h m : Nat) :
    parseTime s = some ⟨h, m⟩ ↔ TimePat (jsTrim s) h m ∧ h ≤ 23 ∧ m ≤ 59 := by
  rw [parseTime_eq_some_match, timeMatch_eq_some_iff]

theorem parseTime_bounds (s : List Char) (t : Time) (hEq : parseTime s = some t) :
    t.hours ≤ 23 ∧ t.minutes ≤ 59 := by
  obtain ⟨h, m⟩ := t
  exact ((parseTime_eq_some_iff s h m).mp hEq).2

/-- C2: `parseTime` succeeds exactly on strings whose trim matches
`^\d{1,2}:\d{2}$` with in-range components, fails on everything else, and
accepts every time from `0:00` to `23:59`. -/
theorem parseTime_claim : ∀ s : List Char,
    (∀ h m : Nat, parseTime s = some ⟨h, m⟩ ↔
      (TimePat (jsTrim s) h m ∧ h ≤ 23 ∧ m ≤ 59)) ∧
    (parseTime s = none ↔ ¬ ∃ h m, TimePat (jsTrim s) h m ∧ h ≤ 23 ∧ m ≤ 59) ∧
    (∀ h m : Nat, h ≤ 23 → m ≤ 59 → parseTime (renderTime h m) = some ⟨h, m⟩) := by
  intro s
  refine ⟨parseTime_eq_some_iff s, ?_, ?_⟩
  · constructor
    · rintro hnone ⟨h, m, hpat⟩
      have := (parseTime_eq_some_iff s h m).mpr hpat
      rw [hnone] at this
      exact absurd this (by simp)
    · intro hno
      rcases hEq : parseTime s with _ | ⟨h, m⟩
      · rfl
      · exact absurd ⟨h, m, (parseTime_eq_some_iff s h m).mp hEq⟩ hno
  · intro h m hh hm
    have : ∀ h' < 24, ∀ m' < 60, parseTime (renderTime h' m') = some ⟨h', m'⟩ := by decide
    exact this h (by omega) m (by omega)

theorem parseTime_claim_witness : parseTime (renderTime 23 59) = some ⟨23, 59⟩ :=
  (parseTime_claim []).2.2 23 59 (by decide) (by decide)

theorem calculateMinutes_nonneg (von bis : List Char) : 0 ≤ calculateMinutes von bis := by
  rcases hv : parseTime von with _ | s
  · simp [calculateMinutes, hv]
  · rcases hb : parseTime bis with _ | e
    · simp [calculateMinutes, hv, hb]
    · have hsb := parseTime_bounds von s hv
      have heb := parseTime_bounds bis e hb
      simp only [calculateMinutes, hv, hb]
      split
      · next hle => omega
      · next hlt =>
        have h1 : (s.hours * 60 + s.minutes : Int) ≤ 1439 := by
          have := hsb.1; have := hsb.2; omega
        have h2 : (0 : Int) ≤ e.hours * 60 + e.minutes := by positivity
        omega

/-- C1: `calculateMinutes` is 0 on parse failure, otherwise elapsed minutes
with overnight wraparound; it is never negative, 0 on equal times, and takes
the documented values on the four example inputs. -/
theorem calculateMinutes_claim : ∀ von bis : List Char,
    0 ≤ calculateMinutes von bis ∧
    ((parseTime von = none ∨ parseTime bis = none) → calculateMinutes von bis = 0) ∧
    (∀ s e : Time, parseTime von = some s → parseTime bis = some e →
      calculateMinutes von bis =
        if (s.hours * 60 + s.minutes : Int) ≤ e.hours * 60 + e.minutes
        then (e.hours * 60 + e.minutes : Int) - (s.hours * 60 + s.minutes)
        else (1440 - (s.hours * 60 + s.minutes : Int)) + (e.hours * 60 + e.minutes)) ∧
    calculateMinutes von von = 0 ∧
    calculateMinutes ("09:00".data) ("17:30".data) = 510 ∧
    calculateMinutes ("22:00".data) ("06:00".data) = 480 ∧
    calculateMinutes ("09:00".data) ("09:00".data) = 0 ∧
    calculateMinutes ("".data) ("10:00".data) = 0 := by
  intro von bis
  refine ⟨calculateMinutes_nonneg von bis, ?_, ?_, ?_, by decide, by decide, by decide, by decide⟩
  · rintro (hv | hb)
    · simp [calculateMinutes, hv]
    · rcases hv : parseTime von with _ | s
      · simp [calculateMinutes, hv]
      · simp [calculateMinutes, hv, hb]
  · intro s e hv hb
    simp [calculateMinutes, hv, hb]
  · rcases hv : parseTime von with _ | s
    · simp [calculateMinutes, hv]
    · simp [calculateMinutes, hv]

theorem calculateMinutes_claim_witness :
    calculateMinutes ("".data) ("10:00".data) = 0 :=
  (calculateMinutes_claim ("".data) ("10:00".data)).2.1 (Or.inl (by decide))

/-- The `'von' | 'bis'` field discriminator. -/
inductive TField
  | von
  | bis
deriving DecidableEq, Repr

/-- One `{von, bis}` time-slot record. -/
structure TimeSlot where
  von : List Char
  bis : List Char
deriving DecidableEq, Repr

/-- One day row: three slots plus a remark. -/
structure DayEntry where
  slots : List TimeSlot
  remark : List Char
deriving DecidableEq, Repr

/-- Embedding of `createEmptyDayEntries` (src lines 69-78). -/
def createEmptyDayEntries : List DayEntry :=
  List.replicate 31 { slots := [⟨[], []⟩, ⟨[], []⟩, ⟨[], []⟩], remark := [] }

/-- The record returned by `getCellPosition`. -/
structure CellPos where
  day : Nat
  slotIndex : Nat
  field : TField
deriving DecidableEq, Repr

/-- Embedding of `getCellPosition` (src lines 81-87); the column index is an
integer because the source checks `colIndex < 0`. -/
def getCellPosition (day : Nat) (colIndex : Int) : Option CellPos :=
  if colIndex < 0 || colIndex > 5 then none
  else some ⟨day, colIndex.toNat / 2, if colIndex.toNat % 2 = 0 then TField.von else TField.bis⟩

/-- Embedding of `calculateDayMinutes` (src lines 104-109).  The source
indexes `dayEntries[day - 1]` with `day` always in `1..31`; an out-of-range
index is mapped to 0 here. -/
def calculateDayMinutes (entries : List DayEntry) (day : Nat) : Int :=
  match entries.get? (day - 1) with
  | some entry => entry.slots.foldl (fun total slot => total + calculateMinutes slot.von slot.bis) 0
  | none => 0

/-- Embedding of `totalMinutes` (src lines 111-113): a reduce over the day
entries that only uses the running index. -/
def totalMinutes (entries : List DayEntry) : Int :=
  (List.range entries.length).foldl (fun total index => total + calculateDayMinutes entries (index + 1)) 0

/-- Embedding of `totalHours = Math.floor(totalMinutes / 60)` (src line 115):
`Int.fdiv` is floored division, exactly JavaScript `Math.floor` on a
quotient. -/
def totalHours (entries : List DayEntry) : Int :=
  Int.fdiv (totalMinutes entries) 60

/-- Embedding of `remainingMinutes = totalMinutes % 60` (src line 116); the
dividend is non-negative, where JavaScript `%` and `Int.emod` agree. -/
def remainingMinutes (entries : List DayEntry) : Int :=
  totalMinutes entries % 60

/-- Write one field of a slot (the computed-key update `{...slot, [field]: value}`). -/
def setField (s : TimeSlot) (f : TField) (v : List Char) : TimeSlot :=
  match f with
  | TField.von => { s with von := v }
  | TField.bis => { s with bis := v }

/-- `List.map` with the element index passed to the function, starting at
`k`: the embedding of JavaScript `array.map((x, i) => ...)` (with `k = 0`). -/
def mapIdxFrom (f : Nat → α → α) : Nat → List α → List α
  | _, [] => []
  | k, a :: as => f k a :: mapIdxFrom f (k + 1) as

/-- The day-entry replacement built inside `updateTimeSlot` (src lines
121-126): replace field `f` of slot `si`, keep the other slots and the
remark. -/
def updateEntrySlot (e : DayEntry) (si : Nat) (f : TField) (v : List Char) : DayEntry :=
  { e with slots := mapIdxFrom (fun i slot => if i = si then setField slot f v else slot) 0 e.slots }

/-- Embedding of `updateTimeSlot` (src lines 118-129).  The source writes
`newEntries[day - 1]` for `day` in `1..31`; an out-of-range index is a
no-op here. -/
def updateTimeSlot (entries : List DayEntry) (day si : Nat) (f : TField) (v : List Char) :
    List DayEntry :=
  match entries.get? (day - 1) with
  | some e => entries.set (day - 1) (updateEntrySlot e si f v)
  | none => entries

/-- Embedding of `updateRemark` (src lines 131-137). -/
def updateRemark (entries : List DayEntry) (day : Nat) (v : List Char) : List DayEntry :=
  match entries.get? (day - 1) with
  | some e => entries.set (day - 1) { e with remark := v }
  | none => entries

/-- Read the raw string at grid coordinate `(day, col)` (day `1..31`, column
`0..5` mapping to `(col / 2, col % 2)` slot/field as in `getCellPosition`).
Out-of-range coordinates read as the empty string. -/
def getCell (entries : List DayEntry) (day col : Nat) : List Char :=
  match entries.get? (day - 1) with
  | some e =>
    match e.slots.get? (col / 2) with
    | some s => if col % 2 = 0 then s.von else s.bis
    | none => []
  | none => []

/-- The shape invariant: 31 day entries, 3 slots each. -/
def WF (entries : List DayEntry) : Prop :=
  entries.length = 31 ∧ ∀ e ∈ entries, e.slots.length = 3

/-- JavaScript `s.split(sep)` for a single separator character. -/
def splitOnChar (sep : Char) : List Char → List (List Char)
  | [] => [[]]
  | c :: rest =>
    if c = sep then [] :: splitOnChar sep rest
    else
      match splitOnChar sep rest with
      | [] => [[c]]
      | r :: rs => (c :: r) :: rs

/-- JavaScript `row.split('\t')` (src line 157). -/
def splitTab (s : List Char) : List (List Char) := splitOnChar '\t' s

/-- JavaScript `text.split(/\r?\n/)` (src line 148): split at every newline,
consuming one carriage return immediately before it. -/
def splitNL : List Char → List (List Char)
  | [] => [[]]
  | [c] => if c = '\n' then [[], []] else [[c]]
  | c :: c2 :: rest =>
    if c = '\n' then [] :: splitNL (c2 :: rest)
    else if c = '\r' && c2 = '\n' then [] :: splitNL rest
    else
      match splitNL (c2 :: rest) with
      | [] => [[c]]
      | r :: rs => (c :: r) :: rs

/-- The interception test of `handlePaste` (src line 144): the clipboard
text contains a tab or a newline. -/
def pasteIntercepts (text : List Char) : Bool :=
  text.contains '\t' || text.contains '\n'

/-- One cell write of the paste loop (src lines 158-170): locate the target
cell, drop it when the column is out of range or the day exceeds 31,
otherwise store the trimmed cell value. -/
def applyCell (entries : List DayEntry) (targetDay : Nat) (targetCol : Int)
    (cellValue : List Char) : List DayEntry :=
  match getCellPosition targetDay targetCol with
  | some pos =>
    if pos.day ≤ 31 then
      match entries.get? (pos.day - 1) with
      | some e => entries.set (pos.day - 1)
          (updateEntrySlot e pos.slotIndex pos.field (jsTrim cellValue))
      | none => entries
    else entries
  | none => entries

/-- The inner `cells.forEach` of the paste loop, with the running column. -/
def applyCells (entries : List DayEntry) (targetDay : Nat) (col : Int) :
    List (List Char) → List DayEntry
  | [] => entries
  | v :: vs => applyCells (applyCell entries targetDay col v) targetDay (col + 1) vs

/-- The outer `rows.forEach` of the paste loop (src lines 153-172), with the
running day; a row whose day exceeds 31 is skipped but iteration
continues. -/
def applyRows (entries : List DayEntry) (day : Nat) (col : Int) :
    List (List Char) → List DayEntry
  | [] => entries
  | r :: rs =>
    applyRows (if 31 < day then entries else applyCells entries day col (splitTab r))
      (day + 1) col rs

/-- Embedding of the state update of `handlePaste` (src lines 140-180): when
the text holds a tab or newline, trim it, split it into rows and cells, and
write the block at the anchor; otherwise the handler does not touch the
grid (the browser's default single-field paste runs instead). -/
def handlePaste (entries : List DayEntry) (day : Nat) (col : Int)
    (text : List Char) : List DayEntry :=
  if pasteIntercepts text then applyRows entries day col (splitNL (jsTrim text))
  else entries

/-- The paste state update exactly as claim C4 words it: the same row/cell
write loop, but splitting the clipboard text as received, without first
trimming it. -/
def claimPasteWrite (entries : List DayEntry) (day : Nat) (col : Int)
    (text : List Char) : List DayEntry :=
  if pasteIntercepts text then applyRows entries day col (splitNL text)
  else entries

/-- The user-visible grid operations (claim C6). -/
inductive GridOp
  | slot (day si : Nat) (f : TField) (v : List Char)
  | remark (day : Nat) (v : List Char)
  | paste (day : Nat) (col : Int) (text : List Char)
  | clear

/-- One step of the grid state machine. -/
def applyOp (entries : List DayEntry) : GridOp → List DayEntry
  | GridOp.slot day si f v => updateTimeSlot entries day si f v
  | GridOp.remark day v => updateRemark entries day v
  | GridOp.paste day col text => handlePaste entries day col text
  | GridOp.clear => createEmptyDayEntries

/-- The argument ranges with which the UI invokes each operation: days
`1..31`, slot indices `0..2`, anchor columns `0..5`. -/
def ValidOp : GridOp → Prop
  | GridOp.slot day si _ _ => 1 ≤ day ∧ day ≤ 31 ∧ si ≤ 2
  | GridOp.remark day _ => 1 ≤ day ∧ day ≤ 31
  | GridOp.paste day col _ => 1 ≤ day ∧ day ≤ 31 ∧ 0 ≤ col ∧ col ≤ 5
  | GridOp.clear => True

/-- Grid states reachable from the initial empty grid by UI operations. -/
def Reachable (entries : List DayEntry) : Prop :=
  ∃ ops : List GridOp, (∀ op ∈ ops, ValidOp op) ∧
    entries = ops.foldl applyOp createEmptyDayEntries

/-- JavaScript `array.join(sep)` for a single separator character. -/
def joinSep (sep : Char) : List (List Char) → List Char
  | [] => []
  | [v] => v
  | v :: vs => v ++ sep :: joinSep sep vs

/-- Modelled from the spec: the copy handler is absent from `src` (only the
paste handler exists there); spec §4.3 defines copy as serializing the
selection rectangle row-major, columns left to right, cells joined by a
horizontal tab, rows joined by a newline, each cell the raw field string. -/
def serializeRect (entries : List DayEntry) (d0 c0 rows cols : Nat) : List Char :=
  joinSep '\n' ((List.range rows).map (fun i =>
    joinSep '\t' ((List.range cols).map (fun j => getCell entries (d0 + i) (c0 + j)))))

theorem foldl_calc_eq_sum (l : List TimeSlot) (a : Int) :
    l.foldl (fun total slot => total + calculateMinutes slot.von slot.bis) a =
      a + (l.map (fun s => calculateMinutes s.von s.bis)).sum := by
  induction l generalizing a with
  | nil => simp
  | cons x xs ih => simp [ih, add_assoc]

theorem foldl_day_eq_sum (entries : List DayEntry) (l : List Nat) (a : Int) :
    l.foldl (fun total index => total + calculateDayMinutes entries (index + 1)) a =
      a + (l.map (fun d => calculateDayMinutes entries (d + 1))).sum := by
  induction l generalizing a with
  | nil => simp
  | cons x xs ih => simp [ih, add_assoc]

theorem calculateDayMinutes_eq_sum (entries : List DayEntry) (day : Nat) (e : DayEntry)
    (he : entries.get? (day - 1) = some e) :
    calculateDayMinutes entries day =
      (e.slots.map (fun s => calculateMinutes s.von s.bis)).sum := by
  unfold calculateDayMinutes
  rw [he]
  show e.slots.foldl (fun total slot => total + calculateMinutes slot.von slot.bis) 0 = _
  rw [foldl_calc_eq_sum]
  simp

theorem calculateDayMinutes_nonneg (entries : List DayEntry) (day : Nat) :
    0 ≤ calculateDayMinutes entries day := by
  unfold calculateDayMinutes
  rcases entries.get? (day - 1) with _ | e
  · simp
  · show (0 : Int) ≤ e.slots.foldl (fun total slot => total + calculateMinutes slot.von slot.bis) 0
    rw [foldl_calc_eq_sum]
    simp only [zero_add]
    refine List.sum_nonneg ?_
    intro x hx
    simp only [List.mem_map] at hx
    obtain ⟨s, -, rfl⟩ := hx
    exact calculateMinutes_nonneg s.von s.bis

theorem totalMinutes_eq_sum (entries : List DayEntry) :
    totalMinutes entries =
      ((List.range entries.length).map (fun d => calculateDayMinutes entries (d + 1))).sum := by
  unfold totalMinutes
  rw [foldl_day_eq_sum]
  simp

theorem totalMinutes_nonneg (entries : List DayEntry) : 0 ≤ totalMinutes entries := by
  rw [totalMinutes_eq_sum]
  refine List.sum_nonneg ?_
  intro x hx
  simp only [List.mem_map] at hx
  obtain ⟨d, -, rfl⟩ := hx
  exact calculateDayMinutes_nonneg entries (d + 1)

/-- C3: on a 31-day grid, the monthly total is the sum of the daily totals,
each daily total is the sum of `calculateMinutes` over that day's slots,
`totalHours` is the floor of `totalMinutes / 60`, and `remainingMinutes` is
`totalMinutes % 60`. -/
theorem totals_claim : ∀ entries : List DayEntry, entries.length = 31 →
    (totalMinutes entries =
      ((List.range 31).map (fun d => calculateDayMinutes entries (d + 1))).sum) ∧
    (∀ day e, entries.get? (day - 1) = some e →
      calculateDayMinutes entries day =
        (e.slots.map (fun s => calculateMinutes s.von s.bis)).sum) ∧
    totalHours entries = ⌊(totalMinutes entries : ℚ) / 60⌋ ∧
    remainingMinutes entries = totalMinutes entries % 60 := by
  intro entries hlen
  refine ⟨?_, ?_, ?_, rfl⟩
  · rw [totalMinutes_eq_sum, hlen]
  · intro day e he
    exact calculateDayMinutes_eq_sum entries day e he
  · unfold totalHours
    rw [Int.fdiv_eq_ediv _ (by norm_num)]
    rw [show ((60 : ℚ)) = ((60 : Nat) : ℚ) by norm_num]
    rw [Rat.floor_intCast_div_natCast]
    norm_num

theorem totals_claim_witness :
    (totalMinutes createEmptyDayEntries =
      ((List.range 31).map (fun d => calculateDayMinutes createEmptyDayEntries (d + 1))).sum) ∧
    totalHours createEmptyDayEntries = ⌊(totalMinutes createEmptyDayEntries : ℚ) / 60⌋ :=
  ⟨(totals_claim createEmptyDayEntries (by decide)).1,
   (totals_claim createEmptyDayEntries (by decide)).2.2.1⟩

theorem mapIdxFrom_length {α : Type} (f : Nat → α → α) (k : Nat) (l : List α) :
    (mapIdxFrom f k l).length = l.length := by
  induction l generalizing k with
  | nil => rfl
  | cons a as ih => simp [mapIdxFrom, ih]

theorem updateEntrySlot_slots_length (e : DayEntry) (si : Nat) (f : TField) (v : List Char) :
    (updateEntrySlot e si f v).slots.length = e.slots.length := by
  unfold updateEntrySlot
  exact mapIdxFrom_length _ _ _

theorem WF_createEmpty : WF createEmptyDayEntries := by
  constructor
  · simp [createEmptyDayEntries]
  · intro e he
    rw [List.eq_of_mem_replicate he]
    rfl

theorem WF_set (entries : List DayEntry) (k : Nat) (e' : DayEntry)
    (hWF : WF entries) (h3 : e'.slots.length = 3) : WF (entries.set k e') := by
  refine ⟨by rw [List.length_set]; exact hWF.1, ?_⟩
  intro e he
  rcases List.mem_or_eq_of_mem_set he with h | rfl
  · exact hWF.2 e h
  · exact h3

theorem WF_updateTimeSlot (entries : List DayEntry) (day si : Nat) (f : TField)
    (v : List Char) (hWF : WF entries) : WF (updateTimeSlot entries day si f v) := by
  unfold updateTimeSlot
  rcases he : entries.get? (day - 1) with _ | e
  · exact hWF
  · exact WF_set _ _ _ hWF
      (by rw [updateEntrySlot_slots_length]; exact hWF.2 e (List.get?_mem he))

theorem WF_updateRemark (entries : List DayEntry) (day : Nat) (v : List Char)
    (hWF : WF entries) : WF (updateRemark entries day v) := by
  unfold updateRemark
  rcases he : entries.get? (day - 1) with _ | e
  · exact hWF
  · exact WF_set _ _ _ hWF (hWF.2 e (List.get?_mem he))

theorem WF_applyCell (entries : List DayEntry) (targetDay : Nat) (targetCol : Int)
    (cellValue : List Char) (hWF : WF entries) :
    WF (applyCell entries targetDay targetCol cellValue) := by
  unfold applyCell
  rcases getCellPosition targetDay targetCol with _ | pos
  · exact hWF
  · by_cases hd : pos.day ≤ 31
    · simp only [hd, if_true]
      rcases he : entries.get? (pos.day - 1) with _ | e
      · exact hWF
      · exact WF_set _ _ _ hWF
          (by rw [updateEntrySlot_slots_length]; exact hWF.2 e (List.get?_mem he))
    · simp only [hd, if_false]
      exact hWF

theorem WF_applyCells (vs : List (List Char)) (entries : List DayEntry)
    (targetDay : Nat) (col : Int) (hWF : WF entries) :
    WF (applyCells entries targetDay col vs) := by
  induction vs generalizing entries col with
  | nil => exact hWF
  | cons v vs ih => exact ih _ _ (WF_applyCell _ _ _ _ hWF)

theorem WF_applyRows (rows : List (List Char)) (entries : List DayEntry)
    (day : Nat) (col : Int) (hWF : WF entries) :
    WF (applyRows entries day col rows) := by
  induction rows generalizing entries day with
  | nil => exact hWF
  | cons r rs ih =>
    refine ih _ _ ?_
    by_cases hd : 31 < day
    · simp only [hd, if_true]
      exact hWF
    · simp only [hd, if_false]
      exact WF_applyCells _ _ _ _ hWF

theorem WF_handlePaste (entries : List DayEntry) (day : Nat) (col : Int)
    (text : List Char) (hWF : WF entries) : WF (handlePaste entries day col text) := by
  unfold handlePaste
  by_cases hi : pasteIntercepts text
  · simp only [hi, if_true]
    exact WF_applyRows _ _ _ _ hWF
  · simp only [hi, if_false]
    exact hWF

theorem WF_applyOp (entries : List DayEntry) (op : GridOp) (hWF : WF entries) :
    WF (applyOp entries op) := by
  cases op with
  | slot day si f v => exact WF_updateTimeSlot _ _ _ _ _ hWF
  | remark day v => exact WF_updateRemark _ _ _ hWF
  | paste day col text => exact WF_handlePaste _ _ _ _ hWF
  | clear => exact WF_createEmpty

/-- C6: every grid state reachable from the initial state by the UI
operations keeps 31 day entries with 3 slots each, and a non-negative total
of minutes. -/
theorem reachable_claim : ∀ entries : List DayEntry, Reachable entries →
    entries.length = 31 ∧ (∀ e ∈ entries, e.slots.length = 3) ∧
      0 ≤ totalMinutes entries := by
  rintro entries ⟨ops, -, rfl⟩
  have hWF : WF (ops.foldl applyOp createEmptyDayEntries) := by
    have hgen : ∀ start : List DayEntry, WF start → WF (ops.foldl applyOp start) := by
      induction ops with
      | nil => exact fun start h => h
      | cons op ops ih => exact fun start h => ih _ (WF_applyOp start op h)
    exact hgen _ WF_createEmpty
  exact ⟨hWF.1, hWF.2, totalMinutes_nonneg _⟩

theorem reachable_claim_witness :
    createEmptyDayEntries.length = 31 ∧
      (∀ e ∈ createEmptyDayEntries, e.slots.length = 3) ∧
      0 ≤ totalMinutes createEmptyDayEntries :=
  reachable_claim createEmptyDayEntries ⟨[], by simp, rfl⟩

/-- The grid column addressing field `f` of slot `si` (see `getCellPosition`:
even columns are `von`, odd are `bis`). -/
def colOf : Nat → TField → Nat
  | si, TField.von => 2 * si
  | si, TField.bis => 2 * si + 1

/-- Read one column of a single day entry, as `getCell` does. -/
def entryRead (e : DayEntry) (col : Nat) : List Char :=
  match e.slots.get? (col / 2) with
  | some s => if col % 2 = 0 then s.von else s.bis
  | none => []

theorem getCell_eq_entryRead (entries : List DayEntry) (day col : Nat) (e : DayEntry)
    (he : entries.get? (day - 1) = some e) :
    getCell entries day col = entryRead e col := by
  unfold getCell entryRead
  rw [he]

theorem lt_of_get?_eq_some {α : Type} {l : List α} {n : Nat} {a : α}
    (h : l.get? n = some a) : n < l.length := by
  by_contra hn
  rw [List.get?_eq_none.mpr (by omega)] at h
  exact Option.noConfusion h

theorem set_get?_self {α : Type} (l : List α) (n : Nat) (a : α)
    (h : l.get? n = some a) : l.set n a = l := by
  induction l generalizing n with
  | nil => rfl
  | cons x xs ih =>
    cases n with
    | zero =>
      simp only [List.get?] at h
      injection h with h
      rw [h]
      rfl
    | succ n =>
      simp only [List.get?] at h
      simp only [List.set]
      rw [ih n h]

theorem mapIdxFrom_get? {α : Type} (f : Nat → α → α) (k : Nat) (l : List α) (i : Nat) :
    (mapIdxFrom f k l).get? i = (l.get? i).map (f (k + i)) := by
  induction l generalizing k i with
  | nil => simp [mapIdxFrom]
  | cons a as ih =>
    cases i with
    | zero => simp [mapIdxFrom]
    | succ n =>
      simp only [mapIdxFrom, List.get?_cons_succ]
      rw [ih]
      have hkn : k + 1 + n = k + (n + 1) := by omega
      rw [hkn]

theorem updateEntrySlot_slots_get? (e : DayEntry) (si : Nat) (f : TField) (v : List Char)
    (i : Nat) :
    (updateEntrySlot e si f v).slots.get? i =
      if i = si then (e.slots.get? i).map (fun s => setField s f v)
      else e.slots.get? i := by
  unfold updateEntrySlot
  simp only [mapIdxFrom_get?, Nat.zero_add]
  by_cases h : i = si
  · subst h
    simp
  · simp only [h, if_false]
    cases e.slots.get? i <;> simp [h]

theorem updateEntrySlot_remark (e : DayEntry) (si : Nat) (f : TField) (v : List Char) :
    (updateEntrySlot e si f v).remark = e.remark := rfl

theorem getCell_set_ne (entries : List DayEntry) (k : Nat) (e' : DayEntry) (d c : Nat)
    (h : k ≠ d - 1) : getCell (entries.set k e') d c = getCell entries d c := by
  unfold getCell
  rw [List.get?_set_ne _ _ h]

theorem getCell_set_self (entries : List DayEntry) (k : Nat) (e' : DayEntry) (c : Nat)
    (hk : k < entries.length) (d : Nat) (hd : d - 1 = k) :
    getCell (entries.set k e') d c = entryRead e' c := by
  unfold getCell entryRead
  rw [hd, List.get?_set_eq_of_lt _ hk]

theorem entryRead_updateEntrySlot_ne (e : DayEntry) (si : Nat) (f : TField) (v : List Char)
    (c : Nat) (hc : c ≠ colOf si f) :
    entryRead (updateEntrySlot e si f v) c = entryRead e c := by
  unfold entryRead
  rw [updateEntrySlot_slots_get?]
  by_cases h2 : c / 2 = si
  · rw [if_pos h2]
    rcases hs : e.slots.get? (c / 2) with _ | s
    · simp
    · cases f with
      | von =>
        have hodd : c % 2 ≠ 0 := by
          intro he0
          apply hc
          simp only [colOf]
          omega
        simp only [Option.map_some', hodd, if_false]
        rfl
      | bis =>
        have heven : c % 2 = 0 := by
          simp only [colOf] at hc
          omega
        simp only [Option.map_some', heven, if_true]
        rfl
  · rw [if_neg h2]

theorem entryRead_updateEntrySlot_self (e : DayEntry) (si : Nat) (f : TField)
    (v : List Char) (hsi : si < e.slots.length) :
    entryRead (updateEntrySlot e si f v) (colOf si f) = v := by
  unfold entryRead
  rw [updateEntrySlot_slots_get?]
  have h2 : colOf si f / 2 = si := by cases f <;> (simp only [colOf]; omega)
  rw [if_pos h2, h2]
  rcases hs : e.slots.get? si with _ | s
  · exact absurd (List.get?_eq_none.mp hs) (by omega)
  · cases f with
    | von =>
      have hpar : colOf si TField.von % 2 = 0 := by simp only [colOf]; omega
      simp only [Option.map_some', hpar, if_true]
      rfl
    | bis =>
      have hpar : colOf si TField.bis % 2 ≠ 0 := by simp only [colOf]; omega
      simp only [Option.map_some', hpar, if_false]
      rfl

theorem getCell_updateTimeSlot_frame (entries : List DayEntry) (day si : Nat)
    (f : TField) (v : List Char) (d c : Nat) (hd1 : 1 ≤ d) (hday : 1 ≤ day)
    (h : d ≠ day ∨ c ≠ colOf si f) :
    getCell (updateTimeSlot entries day si f v) d c = getCell entries d c := by
  unfold updateTimeSlot
  rcases he : entries.get? (day - 1) with _ | e
  · rfl
  · by_cases hdd : d = day
    · subst hdd
      rcases h with hd | hc
      · exact absurd rfl hd
      · rw [getCell_set_self entries (d - 1) _ c (lt_of_get?_eq_some he) d rfl]
        rw [entryRead_updateEntrySlot_ne e si f v c hc]
        exact (getCell_eq_entryRead entries d c e he).symm
    · exact getCell_set_ne _ _ _ _ _ (by omega)

theorem getCell_updateTimeSlot_self (entries : List DayEntry) (day si : Nat)
    (f : TField) (v : List Char) (e : DayEntry)
    (he : entries.get? (day - 1) = some e) (hsi : si < e.slots.length) :
    getCell (updateTimeSlot entries day si f v) day (colOf si f) = v := by
  unfold updateTimeSlot
  rw [he]
  rw [getCell_set_self entries (day - 1) _ _ (lt_of_get?_eq_some he) day rfl]
  exact entryRead_updateEntrySlot_self e si f v hsi

theorem map_remark_updateTimeSlot (entries : List DayEntry) (day si : Nat) (f : TField)
    (v : List Char) :
    (updateTimeSlot entries day si f v).map DayEntry.remark =
      entries.map DayEntry.remark := by
  unfold updateTimeSlot
  rcases he : entries.get? (day - 1) with _ | e
  · rfl
  · rw [List.map_set, updateEntrySlot_remark]
    exact set_get?_self _ _ _ (by rw [List.get?_map, he]; rfl)

theorem map_slots_updateRemark (entries : List DayEntry) (day : Nat) (v : List Char) :
    (updateRemark entries day v).map DayEntry.slots = entries.map DayEntry.slots := by
  unfold updateRemark
  rcases he : entries.get? (day - 1) with _ | e
  · rfl
  · rw [List.map_set]
    exact set_get?_self _ _ _ (by rw [List.get?_map, he]; rfl)

theorem updateRemark_get?_ne (entries : List DayEntry) (day : Nat) (v : List Char)
    (k : Nat) (h : k ≠ day - 1) :
    (updateRemark entries day v).get? k = entries.get? k := by
  unfold updateRemark
  rcases he : entries.get? (day - 1) with _ | e
  · rfl
  · exact List.get?_set_ne _ _ (by omega)

theorem updateRemark_get?_self (entries : List DayEntry) (day : Nat) (v : List Char)
    (e : DayEntry) (he : entries.get? (day - 1) = some e) :
    (updateRemark entries day v).get? (day - 1) =
      some { slots := e.slots, remark := v } := by
  unfold updateRemark
  rw [he]
  rw [List.get?_set_eq_of_lt _ (lt_of_get?_eq_some he)]

/-- C7: `updateTimeSlot` rewrites exactly one field of one slot of one day,
leaving every other cell and every remark unchanged; `updateRemark` rewrites
exactly one remark, leaving all slots of all days unchanged. -/
theorem update_frame_claim : ∀ (entries : List DayEntry) (day si : Nat) (f : TField)
    (v w : List Char), 1 ≤ day →
    ((∀ d c, 1 ≤ d → (d ≠ day ∨ c ≠ colOf si f) →
        getCell (updateTimeSlot entries day si f v) d c = getCell entries d c) ∧
     (updateTimeSlot entries day si f v).map DayEntry.remark =
        entries.map DayEntry.remark ∧
     (∀ e, entries.get? (day - 1) = some e → si < e.slots.length →
        getCell (updateTimeSlot entries day si f v) day (colOf si f) = v)) ∧
    ((updateRemark entries day w).map DayEntry.slots = entries.map DayEntry.slots ∧
     (∀ k, k ≠ day - 1 → (updateRemark entries day w).get? k = entries.get? k) ∧
     (∀ e, entries.get? (day - 1) = some e →
        (updateRemark entries day w).get? (day - 1) =
          some { slots := e.slots, remark := w })) := by
  intro entries day si f v w hday
  refine ⟨⟨?_, map_remark_updateTimeSlot entries day si f v, ?_⟩,
    map_slots_updateRemark entries day w, updateRemark_get?_ne entries day w,
    updateRemark_get?_self entries day w⟩
  · intro d c hd1 h
    exact getCell_updateTimeSlot_frame entries day si f v d c hd1 hday h
  · intro e he hsi
    exact getCell_updateTimeSlot_self entries day si f v e he hsi

theorem update_frame_claim_witness :
    getCell (updateTimeSlot createEmptyDayEntries 5 1 TField.von ("08:00".data)) 5
        (colOf 1 TField.von) = "08:00".data ∧
    getCell (updateTimeSlot createEmptyDayEntries 5 1 TField.von ("08:00".data)) 4 2 =
      getCell createEmptyDayEntries 4 2 :=
  ⟨(update_frame_claim createEmptyDayEntries 5 1 TField.von ("08:00".data) [] (by decide)).1.2.2
      { slots := [⟨[], []⟩, ⟨[], []⟩, ⟨[], []⟩], remark := [] } (by decide) (by decide),
   (update_frame_claim createEmptyDayEntries 5 1 TField.von ("08:00".data) [] (by decide)).1.1
      4 2 (by decide) (Or.inl (by decide))⟩

/-- The in-range write performed by one paste cell: replace field
`(c / 2, c % 2)` of day `D` with `v`. -/
def writeCell (entries : List DayEntry) (D c : Nat) (v : List Char) : List DayEntry :=
  match entries.get? (D - 1) with
  | some e => entries.set (D - 1)
      (updateEntrySlot e (c / 2) (if c % 2 = 0 then TField.von else TField.bis) v)
  | none => entries

theorem colOf_decomp (c : Nat) :
    colOf (c / 2) (if c % 2 = 0 then TField.von else TField.bis) = c := by
  by_cases h : c % 2 = 0
  · simp only [h, if_true, colOf]
    omega
  · simp only [h, if_false, colOf]
    omega

theorem getCellPosition_in_range (day : Nat) (col : Int) (h0 : 0 ≤ col) (h5 : col ≤ 5) :
    getCellPosition day col =
      some ⟨day, col.toNat / 2, if col.toNat % 2 = 0 then TField.von else TField.bis⟩ := by
  unfold getCellPosition
  have hcond : (decide (col < 0) || decide (col > 5)) = false := by
    have h1 : ¬ col < 0 := by omega
    have h2 : ¬ col > 5 := by omega
    simp [h1, h2]
  rw [hcond]
  rfl

theorem getCellPosition_out_of_range (day : Nat) (col : Int) (h : col < 0 ∨ 5 < col) :
    getCellPosition day col = none := by
  unfold getCellPosition
  have hcond : (decide (col < 0) || decide (col > 5)) = true := by
    rcases h with h | h <;> simp [h]
  rw [hcond, if_pos rfl]

theorem applyCell_in_range (entries : List DayEntry) (D : Nat) (col : Int)
    (v : List Char) (h0 : 0 ≤ col) (h5 : col ≤ 5) (hD : D ≤ 31) :
    applyCell entries D col v = writeCell entries D col.toNat (jsTrim v) := by
  unfold applyCell writeCell
  rw [getCellPosition_in_range D col h0 h5]
  simp only [hD, if_true]

theorem applyCell_out_col (entries : List DayEntry) (D : Nat) (col : Int)
    (v : List Char) (h : col < 0 ∨ 5 < col) :
    applyCell entries D col v = entries := by
  unfold applyCell
  rw [getCellPosition_out_of_range D col h]

theorem getCell_writeCell_self (entries : List DayEntry) (D c : Nat) (v : List Char)
    (e : DayEntry) (he : entries.get? (D - 1) = some e) (hc : c / 2 < e.slots.length) :
    getCell (writeCell entries D c v) D c = v := by
  unfold writeCell
  rw [he]
  rw [getCell_set_self entries (D - 1) _ _ (lt_of_get?_eq_some he) D rfl]
  have := entryRead_updateEntrySlot_self e (c / 2)
    (if c % 2 = 0 then TField.von else TField.bis) v hc
  rwa [colOf_decomp] at this

theorem getCell_writeCell_ne (entries : List DayEntry) (D c : Nat) (v : List Char)
    (d c' : Nat) (hd1 : 1 ≤ d) (hD : 1 ≤ D) (h : d ≠ D ∨ c' ≠ c) :
    getCell (writeCell entries D c v) d c' = getCell entries d c' := by
  unfold writeCell
  rcases he : entries.get? (D - 1) with _ | e
  · rfl
  · by_cases hdd : d = D
    · subst hdd
      rcases h with hd | hc
      · exact absurd rfl hd
      · rw [getCell_set_self entries (d - 1) _ c' (lt_of_get?_eq_some he) d rfl]
        rw [entryRead_updateEntrySlot_ne _ _ _ _ c' (by rwa [colOf_decomp])]
        exact (getCell_eq_entryRead entries d c' e he).symm
    · exact getCell_set_ne _ _ _ _ _ (by omega)

theorem applyCell_out_day (entries : List DayEntry) (D : Nat) (col : Int)
    (v : List Char) (hD : 31 < D) : applyCell entries D col v = entries := by
  by_cases hcol : 0 ≤ col ∧ col ≤ 5
  · unfold applyCell
    rw [getCellPosition_in_range D col hcol.1 hcol.2]
    show (if D ≤ 31 then _ else entries) = entries
    rw [if_neg (by omega)]
  · exact applyCell_out_col entries D col v (by omega)

theorem getCell_applyCell_ne (entries : List DayEntry) (D : Nat) (col : Int)
    (v : List Char) (d c' : Nat) (hd1 : 1 ≤ d) (hD : 1 ≤ D)
    (h : d ≠ D ∨ (c' : Int) ≠ col) :
    getCell (applyCell entries D col v) d c' = getCell entries d c' := by
  by_cases hcol : 0 ≤ col ∧ col ≤ 5
  · by_cases hDle : D ≤ 31
    · rw [applyCell_in_range entries D col v hcol.1 hcol.2 hDle]
      refine getCell_writeCell_ne _ _ _ _ _ _ hd1 hD ?_
      rcases h with hd | hc
      · exact Or.inl hd
      · refine Or.inr fun hcc => hc ?_
        rw [hcc]
        omega
    · rw [applyCell_out_day entries D col v (by omega)]
  · rw [applyCell_out_col entries D col v (by omega)]

theorem WF_get?_isSome (entries : List DayEntry) (hWF : WF entries) (D : Nat)
    (hD1 : 1 ≤ D) (hD31 : D ≤ 31) : ∃ e, entries.get? (D - 1) = some e := by
  rcases he : entries.get? (D - 1) with _ | e
  · have hn := List.get?_eq_none.mp he
    have hlen := hWF.1
    exact absurd hn (by omega)
  · exact ⟨e, rfl⟩

theorem getCell_applyCells_frame : ∀ (vs : List (List Char)) (entries : List DayEntry)
    (D : Nat) (col : Int) (d c' : Nat), 1 ≤ d → 1 ≤ D → (d ≠ D ∨ (c' : Int) < col) →
    getCell (applyCells entries D col vs) d c' = getCell entries d c' := by
  intro vs
  induction vs with
  | nil =>
    intro entries D col d c' _ _ _
    rfl
  | cons v vs ih =>
    intro entries D col d c' hd1 hD h
    show getCell (applyCells (applyCell entries D col v) D (col + 1) vs) d c' = _
    rw [ih _ D (col + 1) d c' hd1 hD (h.imp (fun x => x) (fun hh => by omega))]
    exact getCell_applyCell_ne entries D col v d c' hd1 hD
      (h.imp (fun x => x) (fun hh => by omega))

theorem getCell_applyCells_read : ∀ (vs : List (List Char)) (entries : List DayEntry)
    (D : Nat) (col : Int) (j : Nat) (v : List Char), WF entries → 1 ≤ D → D ≤ 31 →
    0 ≤ col → col + (j : Int) ≤ 5 → vs.get? j = some v →
    getCell (applyCells entries D col vs) D (col + (j : Int)).toNat = jsTrim v := by
  intro vs
  induction vs with
  | nil =>
    intro entries D col j v _ _ _ _ _ hj
    simp at hj
  | cons v0 vs ih =>
    intro entries D col j v hWF hD1 hD31 h0 h5 hj
    cases j with
    | zero =>
      simp only [List.get?] at hj
      injection hj with hj
      subst hj
      show getCell (applyCells (applyCell entries D col v0) D (col + 1) vs) D _ = _
      rw [getCell_applyCells_frame vs _ D (col + 1) D (col + ((0 : Nat) : Int)).toNat hD1 hD1
        (Or.inr (by omega))]
      have hc0 : col + ((0 : Nat) : Int) = col := by omega
      rw [hc0]
      rw [applyCell_in_range entries D col v0 h0 (by omega) hD31]
      obtain ⟨e, he⟩ := WF_get?_isSome entries hWF D hD1 hD31
      refine getCell_writeCell_self entries D col.toNat (jsTrim v0) e he ?_
      rw [hWF.2 e (List.get?_mem he)]
      omega
    | succ n =>
      simp only [List.get?] at hj
      show getCell (applyCells (applyCell entries D col v0) D (col + 1) vs) D _ = _
      have harith : (col + ((n + 1 : Nat) : Int)).toNat = (col + 1 + (n : Int)).toNat := by
        omega
      rw [harith]
      exact ih (applyCell entries D col v0) D (col + 1) n v
        (WF_applyCell entries D col v0 hWF) hD1 hD31 (by omega) (by push_cast at h5 ⊢; omega) hj

theorem getCell_applyRows_frame : ∀ (rows : List (List Char)) (entries : List DayEntry)
    (day : Nat) (col : Int) (d c' : Nat), 1 ≤ d → d < day →
    getCell (applyRows entries day col rows) d c' = getCell entries d c' := by
  intro rows
  induction rows with
  | nil =>
    intro entries day col d c' _ _
    rfl
  | cons r rs ih =>
    intro entries day col d c' hd1 hlt
    show getCell (applyRows
      (if 31 < day then entries else applyCells entries day col (splitTab r))
      (day + 1) col rs) d c' = _
    rw [ih _ (day + 1) col d c' hd1 (by omega)]
    by_cases hd : 31 < day
    · rw [if_pos hd]
    · rw [if_neg hd]
      exact getCell_applyCells_frame (splitTab r) entries day col d c' hd1 (by omega)
        (Or.inl (by omega))

theorem getCell_applyRows_read : ∀ (rows : List (List Char)) (entries : List DayEntry)
    (day : Nat) (col : Int) (i j : Nat) (row v : List Char), WF entries → 1 ≤ day →
    rows.get? i = some row → day + i ≤ 31 → 0 ≤ col → col + (j : Int) ≤ 5 →
    (splitTab row).get? j = some v →
    getCell (applyRows entries day col rows) (day + i) (col + (j : Int)).toNat =
      jsTrim v := by
  intro rows
  induction rows with
  | nil =>
    intro entries day col i j row v _ _ hi
    simp at hi
  | cons r rs ih =>
    intro entries day col i j row v hWF hday hi hi31 h0 h5 hj
    cases i with
    | zero =>
      simp only [List.get?] at hi
      injection hi with hi
      subst hi
      show getCell (applyRows
        (if 31 < day then entries else applyCells entries day col (splitTab r))
        (day + 1) col rs) (day + 0) _ = _
      rw [if_neg (show ¬ 31 < day by omega)]
      rw [getCell_applyRows_frame rs _ (day + 1) col (day + 0) _ (by omega) (by omega)]
      have hd0 : day + 0 = day := by omega
      rw [hd0]
      exact getCell_applyCells_read (splitTab r) entries day col j v hWF hday
        (by omega) h0 h5 hj
    | succ n =>
      simp only [List.get?] at hi
      show getCell (applyRows
        (if 31 < day then entries else applyCells entries day col (splitTab r))
        (day + 1) col rs) (day + (n + 1)) _ = _
      have harith : day + (n + 1) = (day + 1) + n := by omega
      rw [harith]
      refine ih _ (day + 1) col n j row v ?_ (by omega) hi (by omega) h0 h5 hj
      by_cases hd : 31 < day
      · rw [if_pos hd]
        exact hWF
      · rw [if_neg hd]
        exact WF_applyCells _ _ _ _ hWF

theorem handlePaste_not_intercepted (entries : List DayEntry) (day : Nat) (col : Int)
    (text : List Char) (h : pasteIntercepts text = false) :
    handlePaste entries day col text = entries := by
  unfold handlePaste
  rw [h]
  rfl

theorem getCell_handlePaste_read (entries : List DayEntry) (day : Nat) (col : Int)
    (text : List Char) (i j : Nat) (row v : List Char) (hWF : WF entries)
    (hday : 1 ≤ day) (hint : pasteIntercepts text = true)
    (hi : (splitNL (jsTrim text)).get? i = some row) (hi31 : day + i ≤ 31)
    (h0 : 0 ≤ col) (h5 : col + (j : Int) ≤ 5)
    (hj : (splitTab row).get? j = some v) :
    getCell (handlePaste entries day col text) (day + i) (col + (j : Int)).toNat =
      jsTrim v := by
  unfold handlePaste
  rw [hint, if_pos rfl]
  exact getCell_applyRows_read _ entries day col i j row v hWF hday hi hi31 h0 h5 hj

theorem map_remark_set_entry (entries : List DayEntry) (k : Nat) (e e' : DayEntry)
    (he : entries.get? k = some e) (hr : e'.remark = e.remark) :
    (entries.set k e').map DayEntry.remark = entries.map DayEntry.remark := by
  rw [List.map_set, hr]
  exact set_get?_self _ _ _ (by rw [List.get?_map, he]; rfl)

theorem map_remark_applyCell (entries : List DayEntry) (D : Nat) (col : Int)
    (v : List Char) :
    (applyCell entries D col v).map DayEntry.remark = entries.map DayEntry.remark := by
  by_cases hcol : 0 ≤ col ∧ col ≤ 5
  · by_cases hD : D ≤ 31
    · rw [applyCell_in_range entries D col v hcol.1 hcol.2 hD]
      unfold writeCell
      rcases he : entries.get? (D - 1) with _ | e
      · rfl
      · exact map_remark_set_entry entries (D - 1) e _ he rfl
    · rw [applyCell_out_day entries D col v (by omega)]
  · rw [applyCell_out_col entries D col v (by omega)]

theorem map_remark_applyCells : ∀ (vs : List (List Char)) (entries : List DayEntry)
    (D : Nat) (col : Int),
    (applyCells entries D col vs).map DayEntry.remark = entries.map DayEntry.remark := by
  intro vs
  induction vs with
  | nil =>
    intro entries D col
    rfl
  | cons v vs ih =>
    intro entries D col
    show (applyCells (applyCell entries D col v) D (col + 1) vs).map DayEntry.remark = _
    rw [ih _ D (col + 1), map_remark_applyCell]

theorem map_remark_applyRows : ∀ (rows : List (List Char)) (entries : List DayEntry)
    (day : Nat) (col : Int),
    (applyRows entries day col rows).map DayEntry.remark =
      entries.map DayEntry.remark := by
  intro rows
  induction rows with
  | nil =>
    intro entries day col
    rfl
  | cons r rs ih =>
    intro entries day col
    show (applyRows
      (if 31 < day then entries else applyCells entries day col (splitTab r))
      (day + 1) col rs).map DayEntry.remark = _
    rw [ih _ (day + 1) col]
    by_cases hd : 31 < day
    · rw [if_pos hd]
    · rw [if_neg hd, map_remark_applyCells]

theorem map_remark_handlePaste (entries : List DayEntry) (day : Nat) (col : Int)
    (text : List Char) :
    (handlePaste entries day col text).map DayEntry.remark =
      entries.map DayEntry.remark := by
  unfold handlePaste
  by_cases hi : pasteIntercepts text
  · rw [if_pos hi]
    exact map_remark_applyRows _ entries day col
  · rw [if_neg hi]

/-- C4 counterexample: the handler trims the clipboard text before splitting
(src line 148: `pastedText.trim().split(...)`), so on `"a\n\n"` — intercepted,
since it contains newlines — the code writes only the anchor cell, while the
claim's untrimmed algorithm would also overwrite the two cells below with
empty strings, here erasing the value `"x"` stored at day 2, column 0. -/
theorem handlePaste_claim_counterexample :
    pasteIntercepts ("a\n\n".data) = true ∧
    handlePaste (updateTimeSlot createEmptyDayEntries 2 0 TField.von ("x".data)) 1 0
        ("a\n\n".data) ≠
      claimPasteWrite (updateTimeSlot createEmptyDayEntries 2 0 TField.von ("x".data)) 1 0
        ("a\n\n".data) := by
  constructor
  · decide
  · decide

/-- C4 (amended): when the clipboard text holds a tab or newline the handler
first trims it, then splits into rows on newlines and cells on tabs and
writes the block at the anchor; each in-range target cell reads back the
trimmed cell value; a 2×2 block pasted at `(30, 5)` writes exactly cells
`(30,5)` and `(31,5)`; a text without tab or newline is not intercepted. -/
theorem handlePaste_claim_amended : ∀ (entries : List DayEntry) (day : Nat) (col : Int)
    (text : List Char),
    (pasteIntercepts text = true →
      handlePaste entries day col text =
        applyRows entries day col (splitNL (jsTrim text))) ∧
    (pasteIntercepts text = false → handlePaste entries day col text = entries) ∧
    (∀ (i j : Nat) (row v : List Char), WF entries → 1 ≤ day → pasteIntercepts text = true →
      (splitNL (jsTrim text)).get? i = some row → day + i ≤ 31 → 0 ≤ col →
      col + (j : Int) ≤ 5 → (splitTab row).get? j = some v →
      getCell (handlePaste entries day col text) (day + i) (col + (j : Int)).toNat =
        jsTrim v) ∧
    handlePaste createEmptyDayEntries 30 5 ("a\tb\nc\td".data) =
      updateTimeSlot (updateTimeSlot createEmptyDayEntries 30 2 TField.bis ("a".data))
        31 2 TField.bis ("c".data) := by
  intro entries day col text
  refine ⟨?_, handlePaste_not_intercepted entries day col text, ?_, by decide⟩
  · intro h
    unfold handlePaste
    rw [h, if_pos rfl]
  · intro i j row v hWF hday hint hi hi31 h0 h5 hj
    exact getCell_handlePaste_read entries day col text i j row v hWF hday hint hi
      hi31 h0 h5 hj

theorem handlePaste_claim_witness :
    getCell (handlePaste createEmptyDayEntries 2 0 ("a\tb\nc\td".data)) (2 + 0)
        ((0 + ((0 : Nat) : Int)).toNat) = jsTrim ("a".data) :=
  (handlePaste_claim_amended createEmptyDayEntries 2 0 ("a\tb\nc\td".data)).2.2.1
    0 0 ("a\tb".data) ("a".data) WF_createEmpty (by decide) (by decide) (by decide)
    (by decide) (by decide) (by decide) (by decide)

/-- C10: the multi-cell paste handler never touches any day's remark; a
clipboard text without tab or newline leaves the grid unchanged; and
`getCellPosition` addresses exactly columns 0..5. -/
theorem paste_remark_frame_claim : ∀ (entries : List DayEntry) (day : Nat) (col : Int)
    (text : List Char),
    (handlePaste entries day col text).map DayEntry.remark =
        entries.map DayEntry.remark ∧
    (pasteIntercepts text = false → handlePaste entries day col text = entries) ∧
    (∀ (d : Nat) (c : Int), (getCellPosition d c).isSome = true ↔ (0 ≤ c ∧ c ≤ 5)) := by
  intro entries day col text
  refine ⟨map_remark_handlePaste entries day col text,
    handlePaste_not_intercepted entries day col text, ?_⟩
  intro d c
  constructor
  · intro h
    by_contra hc
    rw [getCellPosition_out_of_range d c (by omega)] at h
    simp at h
  · intro hc
    rw [getCellPosition_in_range d c hc.1 hc.2]
    rfl

theorem paste_remark_frame_claim_witness :
    handlePaste createEmptyDayEntries 3 2 ("12:00".data) = createEmptyDayEntries :=
  (paste_remark_frame_claim createEmptyDayEntries 3 2 ("12:00".data)).2.1 (by decide)

theorem splitOnChar_ne_nil (sep : Char) : ∀ s : List Char, splitOnChar sep s ≠ [] := by
  intro s
  induction s with
  | nil => simp [splitOnChar]
  | cons c rest ih =>
    unfold splitOnChar
    by_cases hc : c = sep
    · simp [hc]
    · rw [if_neg hc]
      rcases h : splitOnChar sep rest with _ | ⟨r, rs⟩
      · simp
      · simp

theorem splitOnChar_not_mem (sep : Char) : ∀ (v : List Char), sep ∉ v →
    splitOnChar sep v = [v] := by
  intro v
  induction v with
  | nil => intro _; rfl
  | cons c rest ih =>
    intro h
    have hc : c ≠ sep := fun he => h (by rw [he]; exact List.mem_cons_self _ _)
    have hrest : sep ∉ rest := fun hm => h (List.mem_cons_of_mem _ hm)
    unfold splitOnChar
    rw [if_neg hc, ih hrest]

theorem splitOnChar_append (sep : Char) : ∀ (v t : List Char), sep ∉ v →
    splitOnChar sep (v ++ sep :: t) = v :: splitOnChar sep t := by
  intro v
  induction v with
  | nil =>
    intro t _
    show splitOnChar sep (sep :: t) = [] :: splitOnChar sep t
    conv_lhs => rw [splitOnChar]
    rw [if_pos rfl]
  | cons c rest ih =>
    intro t h
    have hc : c ≠ sep := fun he => h (by rw [he]; exact List.mem_cons_self _ _)
    have hrest : sep ∉ rest := fun hm => h (List.mem_cons_of_mem _ hm)
    show splitOnChar sep (c :: (rest ++ sep :: t)) = (c :: rest) :: splitOnChar sep t
    conv_lhs => rw [splitOnChar]
    rw [if_neg hc, ih t hrest]

theorem splitOnChar_joinSep (sep : Char) : ∀ (cells : List (List Char)), cells ≠ [] →
    (∀ v ∈ cells, sep ∉ v) → splitOnChar sep (joinSep sep cells) = cells := by
  intro cells
  induction cells with
  | nil => intro h; exact absurd rfl h
  | cons v vs ih =>
    intro _ hmem
    cases vs with
    | nil =>
      show splitOnChar sep v = [v]
      exact splitOnChar_not_mem sep v (hmem v (List.mem_cons_self _ _))
    | cons w ws =>
      show splitOnChar sep (v ++ sep :: joinSep sep (w :: ws)) = v :: (w :: ws)
      rw [splitOnChar_append sep v _ (hmem v (List.mem_cons_self _ _))]
      rw [ih (by simp) (fun u hu => hmem u (List.mem_cons_of_mem _ hu))]

theorem splitNL_no_break : ∀ (v : List Char), '\n' ∉ v → '\r' ∉ v →
    splitNL v = [v] := by
  intro v
  induction v with
  | nil => intro _ _; rfl
  | cons c rest ih =>
    intro hn hr
    have hcn : c ≠ '\n' := fun he => hn (by rw [he]; exact List.mem_cons_self _ _)
    have hcr : c ≠ '\r' := fun he => hr (by rw [he]; exact List.mem_cons_self _ _)
    have hrn : '\n' ∉ rest := fun hm => hn (List.mem_cons_of_mem _ hm)
    have hrr : '\r' ∉ rest := fun hm => hr (List.mem_cons_of_mem _ hm)
    cases rest with
    | nil =>
      show splitNL [c] = [[c]]
      conv_lhs => rw [splitNL]
      rw [if_neg hcn]
    | cons c2 rest2 =>
      show splitNL (c :: c2 :: rest2) = [c :: c2 :: rest2]
      conv_lhs => rw [splitNL]
      rw [if_neg hcn, if_neg (by simp [hcr])]
      rw [ih hrn hrr]

theorem splitNL_append : ∀ (v t : List Char), '\n' ∉ v → '\r' ∉ v →
    splitNL (v ++ '\n' :: t) = v :: splitNL t := by
  intro v
  induction v with
  | nil =>
    intro t _ _
    show splitNL ('\n' :: t) = [] :: splitNL t
    cases t with
    | nil =>
      show splitNL ['\n'] = [[], []]
      conv_lhs => rw [splitNL]
      rw [if_pos rfl]
    | cons c2 rest2 =>
      show splitNL ('\n' :: c2 :: rest2) = [] :: splitNL (c2 :: rest2)
      conv_lhs => rw [splitNL]
      rw [if_pos rfl]
  | cons c rest ih =>
    intro t hn hr
    have hcn : c ≠ '\n' := fun he => hn (by rw [he]; exact List.mem_cons_self _ _)
    have hcr : c ≠ '\r' := fun he => hr (by rw [he]; exact List.mem_cons_self _ _)
    have hrn : '\n' ∉ rest := fun hm => hn (List.mem_cons_of_mem _ hm)
    have hrr : '\r' ∉ rest := fun hm => hr (List.mem_cons_of_mem _ hm)
    rcases hshape : rest ++ '\n' :: t with _ | ⟨c2, rest2⟩
    · exact absurd hshape (by simp)
    · show splitNL (c :: (rest ++ '\n' :: t)) = (c :: rest) :: splitNL t
      rw [hshape]
      conv_lhs => rw [splitNL]
      rw [if_neg hcn, if_neg (by simp [hcr])]
      rw [← hshape, ih t hrn hrr]

theorem splitNL_joinSep : ∀ (rows : List (List Char)), rows ≠ [] →
    (∀ r ∈ rows, '\n' ∉ r ∧ '\r' ∉ r) → splitNL (joinSep '\n' rows) = rows := by
  intro rows
  induction rows with
  | nil => intro h; exact absurd rfl h
  | cons v vs ih =>
    intro _ hmem
    cases vs with
    | nil =>
      show splitNL v = [v]
      exact splitNL_no_break v (hmem v (List.mem_cons_self _ _)).1
        (hmem v (List.mem_cons_self _ _)).2
    | cons w ws =>
      show splitNL (v ++ '\n' :: joinSep '\n' (w :: ws)) = v :: (w :: ws)
      rw [splitNL_append v _ (hmem v (List.mem_cons_self _ _)).1
        (hmem v (List.mem_cons_self _ _)).2]
      rw [ih (by simp) (fun u hu => hmem u (List.mem_cons_of_mem _ hu))]

theorem jsTrim_eq_rdropWhile (s : List Char) :
    jsTrim s = List.rdropWhile isJsSpace (s.dropWhile isJsSpace) := rfl

theorem dropWhile_cons_false {p : Char → Bool} {a : Char} (t : List Char)
    (h : p a = false) : List.dropWhile p (a :: t) = a :: t := by
  simp [List.dropWhile_cons, h]

theorem jsTrim_eq_self_of_shape (a b : Char) (rest front : List Char) (s : List Char)
    (h1 : s = a :: rest) (h2 : s = front ++ [b])
    (ha : isJsSpace a = false) (hb : isJsSpace b = false) : jsTrim s = s := by
  have hdrop : s.dropWhile isJsSpace = s := by
    rw [h1]
    exact dropWhile_cons_false rest ha
  rw [jsTrim_eq_rdropWhile, hdrop]
  rw [List.rdropWhile_eq_self_iff]
  intro hne
  have hlast : s.getLast hne = b := by
    subst h2
    exact List.getLast_concat front
  rw [hlast, hb]
  simp

theorem ends_not_space_of_jsTrim_eq {v : List Char} (hne : v ≠ []) (h : jsTrim v = v) :
    ∃ a rest b front, v = a :: rest ∧ v = front ++ [b] ∧
      isJsSpace a = false ∧ isJsSpace b = false := by
  have hsub : v.dropWhile isJsSpace <:+ v := List.dropWhile_suffix _
  have hlen1 : (jsTrim v).length ≤ (v.dropWhile isJsSpace).length := by
    rw [jsTrim_eq_rdropWhile]
    unfold List.rdropWhile
    rw [List.length_reverse]
    have := (List.dropWhile_suffix (l := (v.dropWhile isJsSpace).reverse) isJsSpace).length_le
    simpa using this
  have hlenv : (jsTrim v).length = v.length := by rw [h]
  have hdlen : (v.dropWhile isJsSpace).length = v.length :=
    Nat.le_antisymm hsub.length_le (by omega)
  have hdrop : v.dropWhile isJsSpace = v := hsub.sublist.eq_of_length hdlen
  obtain ⟨a, rest, rfl⟩ := List.exists_cons_of_ne_nil hne
  have ha : isJsSpace a = false := by
    rcases hcase : isJsSpace a with _ | _
    · rfl
    · rw [List.dropWhile_cons, hcase] at hdrop
      simp only [if_true] at hdrop
      have hlen2 := congrArg List.length hdrop
      have hlen3 := (List.dropWhile_suffix (l := rest) isJsSpace).length_le
      simp only [List.length_cons] at hlen2
      omega
  have hr : List.rdropWhile isJsSpace (a :: rest) = a :: rest := by
    rw [jsTrim_eq_rdropWhile, hdrop] at h
    exact h
  have hlast := (List.rdropWhile_eq_self_iff).mp hr (by simp)
  refine ⟨a, rest, (a :: rest).getLast (by simp), (a :: rest).dropLast, rfl,
    (List.dropLast_append_getLast (by simp)).symm, ha, ?_⟩
  rcases hcase : isJsSpace ((a :: rest).getLast (by simp)) with _ | _
  · rfl
  · exact absurd hcase hlast

theorem joinSep_cons_cons (sep : Char) (v w : List Char) (ws : List (List Char)) :
    joinSep sep (v :: w :: ws) = v ++ sep :: joinSep sep (w :: ws) := rfl

theorem joinSep_cons_head (sep a : Char) (t : List Char) (ls : List (List Char)) :
    ∃ rest, joinSep sep ((a :: t) :: ls) = a :: rest := by
  cases ls with
  | nil => exact ⟨t, rfl⟩
  | cons l ls2 => exact ⟨t ++ sep :: joinSep sep (l :: ls2), rfl⟩

theorem joinSep_concat_last (sep : Char) : ∀ (ls : List (List Char)) (front : List Char)
    (b : Char), ∃ front2, joinSep sep (ls ++ [front ++ [b]]) = front2 ++ [b] := by
  intro ls
  induction ls with
  | nil =>
    intro front b
    exact ⟨front, rfl⟩
  | cons l ls ih =>
    intro front b
    obtain ⟨f2, hf2⟩ := ih front b
    rcases hls : ls ++ [front ++ [b]] with _ | ⟨x, xs⟩
    · exact absurd hls (by simp)
    · refine ⟨l ++ sep :: f2, ?_⟩
      show joinSep sep (l :: (ls ++ [front ++ [b]])) = (l ++ sep :: f2) ++ [b]
      rw [hls, joinSep_cons_cons, ← hls, hf2]
      simp

theorem mem_joinSep (sep c : Char) : ∀ (ls : List (List Char)), c ∈ joinSep sep ls →
    c = sep ∨ ∃ l ∈ ls, c ∈ l := by
  intro ls
  induction ls with
  | nil =>
    intro h
    simp [joinSep] at h
  | cons l ls ih =>
    cases ls with
    | nil =>
      intro h
      exact Or.inr ⟨l, List.mem_cons_self _ _, h⟩
    | cons w ws =>
      intro h
      rw [joinSep_cons_cons] at h
      rcases List.mem_append.mp h with h1 | h1
      · exact Or.inr ⟨l, List.mem_cons_self _ _, h1⟩
      · rcases List.mem_cons.mp h1 with h2 | h2
        · exact Or.inl h2
        · rcases ih h2 with h3 | ⟨u, hu, hcu⟩
          · exact Or.inl h3
          · exact Or.inr ⟨u, List.mem_cons_of_mem _ hu, hcu⟩

theorem sep_mem_joinSep (sep : Char) (ls : List (List Char)) (h : 2 ≤ ls.length) :
    sep ∈ joinSep sep ls := by
  rcases ls with _ | ⟨a, _ | ⟨b, t⟩⟩
  · simp at h
  · simp at h
  · rw [joinSep_cons_cons]
    simp

theorem mem_joinSep_head (sep c : Char) (l : List Char) (ls : List (List Char))
    (h : c ∈ l) : c ∈ joinSep sep (l :: ls) := by
  cases ls with
  | nil => exact h
  | cons w ws =>
    rw [joinSep_cons_cons]
    exact List.mem_append.mpr (Or.inl h)

theorem pasteIntercepts_of_mem (text : List Char)
    (h : '\t' ∈ text ∨ '\n' ∈ text) : pasteIntercepts text = true := by
  unfold pasteIntercepts
  rw [Bool.or_eq_true]
  rcases h with h | h
  · exact Or.inl (List.elem_iff.mpr h)
  · exact Or.inr (List.elem_iff.mpr h)

theorem get?_range_map {β : Type} (f : Nat → β) (n i : Nat) (h : i < n) :
    ((List.range n).map f).get? i = some (f i) := by
  rw [List.get?_map, List.get?_eq_getElem?, List.getElem?_range h]
  rfl

theorem cons_shape_of_get?0 {β : Type} {l : List β} {x : β} (h : l.get? 0 = some x) :
    ∃ t, l = x :: t := by
  rcases l with _ | ⟨a, t⟩
  · simp at h
  · simp only [List.get?] at h
    injection h with h
    exact ⟨t, by rw [h]⟩

theorem map_range_concat {β : Type} (f : Nat → β) (n : Nat) (h : 1 ≤ n) :
    (List.range n).map f = (List.range (n - 1)).map f ++ [f (n - 1)] := by
  obtain ⟨m, rfl⟩ : ∃ m, n = m + 1 := ⟨n - 1, by omega⟩
  rw [List.range_succ, List.map_append]
  simp


/-- One serialized row of the copied rectangle: the raw cell values of
columns `c0..c0+C-1` of day `d0+i`. -/
def cellValsRow (g : List DayEntry) (d0 c0 C i : Nat) : List (List Char) :=
  (List.range C).map (fun j => getCell g (d0 + i) (c0 + j))

/-- The serialized rows of the copied rectangle. -/
def serialRows (g : List DayEntry) (d0 c0 R C : Nat) : List (List Char) :=
  (List.range R).map (fun i => joinSep '\t' (cellValsRow g d0 c0 C i))

theorem serializeRect_eq (g : List DayEntry) (d0 c0 R C : Nat) :
    serializeRect g d0 c0 R C = joinSep '\n' (serialRows g d0 c0 R C) := rfl

theorem cellValsRow_get? (g : List DayEntry) (d0 c0 C i j : Nat) (hj : j < C) :
    (cellValsRow g d0 c0 C i).get? j = some (getCell g (d0 + i) (c0 + j)) :=
  get?_range_map _ C j hj

theorem serialRows_get? (g : List DayEntry) (d0 c0 R C i : Nat) (hi : i < R) :
    (serialRows g d0 c0 R C).get? i =
      some (joinSep '\t' (cellValsRow g d0 c0 C i)) :=
  get?_range_map _ R i hi

theorem serialRows_length (g : List DayEntry) (d0 c0 R C : Nat) :
    (serialRows g d0 c0 R C).length = R := by
  simp [serialRows]

theorem cellValsRow_length (g : List DayEntry) (d0 c0 C i : Nat) :
    (cellValsRow g d0 c0 C i).length = C := by
  simp [cellValsRow]

theorem mem_cellValsRow (g : List DayEntry) (d0 c0 C i : Nat) (u : List Char)
    (hu : u ∈ cellValsRow g d0 c0 C i) :
    ∃ j, j < C ∧ u = getCell g (d0 + i) (c0 + j) := by
  rcases List.mem_map.mp hu with ⟨j, hj, rfl⟩
  exact ⟨j, List.mem_range.mp hj, rfl⟩

theorem mem_serialRows (g : List DayEntry) (d0 c0 R C : Nat) (r : List Char)
    (hr : r ∈ serialRows g d0 c0 R C) :
    ∃ i, i < R ∧ r = joinSep '\t' (cellValsRow g d0 c0 C i) := by
  rcases List.mem_map.mp hr with ⟨i, hi, rfl⟩
  exact ⟨i, List.mem_range.mp hi, rfl⟩

/-- C5 (amended): serializing an R×C rectangle row-major (tabs between
cells, newlines between rows, raw strings) and pasting the text at an
anchor reproduces the rectangle's values at the anchor, subject to
truncation past day 31 / column 5 — provided every rectangle value is
already trimmed and free of tab, newline and carriage return, the top-left
and bottom-right values are nonempty, and the rectangle spans at least two
cells in one direction so the serialization is intercepted as a multi-cell
paste. -/
theorem copy_paste_claim : ∀ (g g' : List DayEntry) (d0 c0 R C : Nat) (d : Nat) (c : Int),
    WF g' → 1 ≤ R → 1 ≤ C → (2 ≤ R ∨ 2 ≤ C) →
    (∀ i, i < R → ∀ j, j < C →
      jsTrim (getCell g (d0 + i) (c0 + j)) = getCell g (d0 + i) (c0 + j) ∧
      '\t' ∉ getCell g (d0 + i) (c0 + j) ∧ '\n' ∉ getCell g (d0 + i) (c0 + j) ∧
      '\r' ∉ getCell g (d0 + i) (c0 + j)) →
    getCell g (d0 + 0) (c0 + 0) ≠ [] →
    getCell g (d0 + (R - 1)) (c0 + (C - 1)) ≠ [] →
    1 ≤ d → 0 ≤ c →
    ∀ i j, i < R → j < C → d + i ≤ 31 → c + (j : Int) ≤ 5 →
      getCell (handlePaste g' d c (serializeRect g d0 c0 R C)) (d + i)
          (c + (j : Int)).toNat =
        getCell g (d0 + i) (c0 + j) := by
  intro g g' d0 c0 R C d c hWF hR hC hRC hclean hTL hBR hd hc i j hiR hjC hi31 hj5
  have hrowclean : ∀ r ∈ serialRows g d0 c0 R C, '\n' ∉ r ∧ '\r' ∉ r := by
    intro r hr
    obtain ⟨i', hi', rfl⟩ := mem_serialRows g d0 c0 R C r hr
    constructor
    · intro hmem
      rcases mem_joinSep '\t' '\n' _ hmem with h1 | ⟨u, hu, hcu⟩
      · exact absurd h1 (by decide)
      · obtain ⟨j', hj', rfl⟩ := mem_cellValsRow g d0 c0 C i' u hu
        exact (hclean i' hi' j' hj').2.2.1 hcu
    · intro hmem
      rcases mem_joinSep '\t' '\r' _ hmem with h1 | ⟨u, hu, hcu⟩
      · exact absurd h1 (by decide)
      · obtain ⟨j', hj', rfl⟩ := mem_cellValsRow g d0 c0 C i' u hu
        exact (hclean i' hi' j' hj').2.2.2 hcu
  have hIntercept : pasteIntercepts (serializeRect g d0 c0 R C) = true := by
    rw [serializeRect_eq]
    apply pasteIntercepts_of_mem
    rcases hRC with hR2 | hC2
    · refine Or.inr (sep_mem_joinSep '\n' _ ?_)
      rw [serialRows_length]
      exact hR2
    · refine Or.inl ?_
      obtain ⟨rs, hrs⟩ := cons_shape_of_get?0 (serialRows_get? g d0 c0 R C 0 (by omega))
      rw [hrs]
      refine mem_joinSep_head '\n' '\t' _ _ ?_
      refine sep_mem_joinSep '\t' _ ?_
      rw [cellValsRow_length]
      exact hC2
  have hTrim : jsTrim (serializeRect g d0 c0 R C) = serializeRect g d0 c0 R C := by
    obtain ⟨a, resta, bTL, frTL, hva, hvbTL, hspa, hspbTL⟩ :=
      ends_not_space_of_jsTrim_eq hTL (hclean 0 (by omega) 0 (by omega)).1
    obtain ⟨aBR, restBR, b, frontb, hvaBR, hvb, hspaBR, hspb⟩ :=
      ends_not_space_of_jsTrim_eq hBR (hclean (R - 1) (by omega) (C - 1) (by omega)).1
    obtain ⟨cs0, hcs0⟩ := cons_shape_of_get?0 (cellValsRow_get? g d0 c0 C 0 0 (by omega))
    have hcell0 : cellValsRow g d0 c0 C 0 = (a :: resta) :: cs0 := by
      rw [hcs0, hva]
    obtain ⟨rest1, hrow0⟩ := joinSep_cons_head '\t' a resta cs0
    obtain ⟨rs, hrs⟩ := cons_shape_of_get?0 (serialRows_get? g d0 c0 R C 0 (by omega))
    have hrows0 : serialRows g d0 c0 R C = (a :: rest1) :: rs := by
      rw [hrs]
      congr 1
      rw [hcell0]
      exact hrow0
    obtain ⟨rest2, htext1⟩ := joinSep_cons_head '\n' a rest1 rs
    have hcellL : cellValsRow g d0 c0 C (R - 1) =
        (List.range (C - 1)).map (fun j2 => getCell g (d0 + (R - 1)) (c0 + j2)) ++
          [frontb ++ [b]] := by
      unfold cellValsRow
      rw [map_range_concat _ C hC, hvb]
    obtain ⟨front2, hrowL⟩ := joinSep_concat_last '\t'
      ((List.range (C - 1)).map (fun j2 => getCell g (d0 + (R - 1)) (c0 + j2))) frontb b
    have hrowsL : serialRows g d0 c0 R C =
        (List.range (R - 1)).map (fun i2 => joinSep '\t' (cellValsRow g d0 c0 C i2)) ++
          [front2 ++ [b]] := by
      unfold serialRows
      rw [map_range_concat _ R hR]
      rw [show joinSep '\t' (cellValsRow g d0 c0 C (R - 1)) = front2 ++ [b] from by
        rw [hcellL]; exact hrowL]
    obtain ⟨front3, htext2⟩ := joinSep_concat_last '\n'
      ((List.range (R - 1)).map (fun i2 => joinSep '\t' (cellValsRow g d0 c0 C i2)))
      front2 b
    refine jsTrim_eq_self_of_shape a b rest2 front3 _ ?_ ?_ hspa hspb
    · rw [serializeRect_eq, hrows0]
      exact htext1
    · rw [serializeRect_eq, hrowsL]
      exact htext2
  have hsplitNL : splitNL (serializeRect g d0 c0 R C) = serialRows g d0 c0 R C := by
    rw [serializeRect_eq]
    refine splitNL_joinSep _ ?_ hrowclean
    intro hnil
    have hlen := serialRows_length g d0 c0 R C
    rw [hnil] at hlen
    simp at hlen
    omega
  have hsplitTab : splitTab (joinSep '\t' (cellValsRow g d0 c0 C i)) =
      cellValsRow g d0 c0 C i := by
    refine splitOnChar_joinSep '\t' _ ?_ ?_
    · intro hnil
      have hlen := cellValsRow_length g d0 c0 C i
      rw [hnil] at hlen
      simp at hlen
      omega
    · intro u hu
      obtain ⟨j', hj', rfl⟩ := mem_cellValsRow g d0 c0 C i u hu
      exact (hclean i hiR j' hj').2.1
  have hjcell : (splitTab (joinSep '\t' (cellValsRow g d0 c0 C i))).get? j =
      some (getCell g (d0 + i) (c0 + j)) := by
    rw [hsplitTab]
    exact cellValsRow_get? g d0 c0 C i j hjC
  unfold handlePaste
  rw [hIntercept, if_pos rfl, hTrim, hsplitNL]
  have hread := getCell_applyRows_read (serialRows g d0 c0 R C) g' d c i j
    (joinSep '\t' (cellValsRow g d0 c0 C i)) (getCell g (d0 + i) (c0 + j))
    hWF hd (serialRows_get? g d0 c0 R C i hiR) hi31 hc hj5 hjcell
  rw [hread]
  exact (hclean i hiR j hjC).1

/-- C5 counterexample: the claim as stated promises the round trip for every
rectangle of raw values, but a value with leading whitespace comes back
trimmed.  With `" a"` at day 1, column 0 and `"b"` at column 1, copying the
1×2 rectangle and pasting it back at the same anchor stores `"a"`, not
`" a"`, even though nothing is truncated. -/
theorem copy_paste_claim_counterexample :
    getCell (handlePaste (updateTimeSlot (updateTimeSlot createEmptyDayEntries 1 0
          TField.von (" a".data)) 1 0 TField.bis ("b".data)) 1 0
        (serializeRect (updateTimeSlot (updateTimeSlot createEmptyDayEntries 1 0
          TField.von (" a".data)) 1 0 TField.bis ("b".data)) 1 0 1 2)) 1 0 ≠
      getCell (updateTimeSlot (updateTimeSlot createEmptyDayEntries 1 0
          TField.von (" a".data)) 1 0 TField.bis ("b".data)) 1 0 := by
  decide

theorem copy_paste_claim_witness :
    getCell (handlePaste createEmptyDayEntries 2 0
        (serializeRect (updateTimeSlot (updateTimeSlot createEmptyDayEntries 1 0
          TField.von ("08:00".data)) 1 0 TField.bis ("12:00".data)) 1 0 1 2)) (2 + 0)
        ((0 + ((0 : Nat) : Int)).toNat) =
      getCell (updateTimeSlot (updateTimeSlot createEmptyDayEntries 1 0
        TField.von ("08:00".data)) 1 0 TField.bis ("12:00".data)) (1 + 0) (0 + 0) :=
  copy_paste_claim
    (updateTimeSlot (updateTimeSlot createEmptyDayEntries 1 0 TField.von ("08:00".data))
      1 0 TField.bis ("12:00".data))
    createEmptyDayEntries 1 0 1 2 2 0 WF_createEmpty (by decide) (by decide)
    (Or.inr (by decide)) (by decide) (by decide) (by decide) (by decide) (by decide)
    0 0 (by decide) (by decide) (by decide) (by decide)

/-- The personal-info snapshot stored in a template (spec §6). -/
structure TemplatePersonalInfo where
  name : List Char
  vorname : List Char
  gebdat : List Char
  persnr : List Char
deriving DecidableEq, Repr

/-- One stored template (spec §6): a named snapshot plus a timestamp. -/
structure Template where
  tname : List Char
  personalInfo : TemplatePersonalInfo
  savedAt : Nat
deriving DecidableEq, Repr

/-- Modelled from the spec: the template save/load code is absent from
`src` (no local storage access appears there); spec §6 specifies a list of
templates keyed uniquely by name with save-by-name overwrite semantics. -/
def saveTemplate (store : List Template) (t : Template) : List Template :=
  if store.any (fun u => u.tname = t.tname) then
    store.map (fun u => if u.tname = t.tname then t else u)
  else store ++ [t]

/-- Modelled from the spec: the single fixed local-storage key under which
the JSON-encoded template list is persisted (spec §6 fixes the key but not
its spelling). -/
def storageKey : String := "stundenrapport-templates"

/-- Modelled from the spec: writing the template list to local storage
touches exactly the one fixed key. -/
def writeStore (storage : String → Option (List Template)) (store : List Template) :
    String → Option (List Template) :=
  fun k => if k = storageKey then some store else storage k

/-- The store keys templates uniquely by name. -/
def UniqueNames (store : List Template) : Prop :=
  store.Pairwise (fun a b => a.tname ≠ b.tname)

theorem saveTemplate_unique (store : List Template) (t : Template)
    (hu : UniqueNames store) : UniqueNames (saveTemplate store t) := by
  unfold saveTemplate
  by_cases hany : store.any (fun u => u.tname = t.tname) = true
  · rw [if_pos hany]
    refine List.Pairwise.map _ ?_ hu
    intro a b hab
    have hfa : ∀ x : Template, (if x.tname = t.tname then t else x).tname = x.tname := by
      intro x
      by_cases hx : x.tname = t.tname
      · rw [if_pos hx, hx]
      · rw [if_neg hx]
    rw [hfa a, hfa b]
    exact hab
  · rw [if_neg hany]
    rw [UniqueNames, List.pairwise_append]
    refine ⟨hu, List.pairwise_singleton _ _, ?_⟩
    intro a ha b hb he
    have hb1 : b = t := by simpa using hb
    rw [hb1] at he
    exact hany (List.any_eq_true.mpr ⟨a, ha, by simpa using he⟩)

theorem filter_map_replace (t : Template) : ∀ store : List Template,
    UniqueNames store → store.any (fun u => u.tname = t.tname) = true →
    (store.map (fun u => if u.tname = t.tname then t else u)).filter
      (fun u => decide (u.tname = t.tname)) = [t] := by
  intro store
  induction store with
  | nil =>
    intro _ hany
    simp at hany
  | cons u0 rest ih =>
    intro hu hany
    rw [List.map_cons]
    by_cases h0 : u0.tname = t.tname
    · rw [if_pos h0]
      rw [List.filter_cons_of_pos (by simp)]
      have hrest : ∀ v ∈ rest, ¬ v.tname = t.tname := by
        intro v hv he
        have := (List.pairwise_cons.mp hu).1 v hv
        rw [h0, he] at this
        exact this rfl
      have hnil : (rest.map (fun u => if u.tname = t.tname then t else u)).filter
          (fun u => decide (u.tname = t.tname)) = [] := by
        rw [List.filter_eq_nil]
        intro q hq
        rcases List.mem_map.mp hq with ⟨v, hv, rfl⟩
        rw [if_neg (hrest v hv)]
        simp [hrest v hv]
      rw [hnil]
    · rw [if_neg h0]
      rw [List.filter_cons_of_neg (by simp [h0])]
      refine ih (List.pairwise_cons.mp hu).2 ?_
      rcases List.any_eq_true.mp hany with ⟨x, hx, hxm⟩
      rcases List.mem_cons.mp hx with rfl | hx2
      · exact absurd (by simpa using hxm) h0
      · exact List.any_eq_true.mpr ⟨x, hx2, hxm⟩

theorem saveTemplate_filter (store : List Template) (t : Template)
    (hu : UniqueNames store) :
    (saveTemplate store t).filter (fun u => decide (u.tname = t.tname)) = [t] := by
  unfold saveTemplate
  by_cases hany : store.any (fun u => u.tname = t.tname) = true
  · rw [if_pos hany]
    exact filter_map_replace t store hu hany
  · rw [if_neg hany]
    rw [List.filter_append]
    have h1 : store.filter (fun u => decide (u.tname = t.tname)) = [] := by
      rw [List.filter_eq_nil]
      intro a ha he
      refine hany (List.any_eq_true.mpr ⟨a, ha, ?_⟩)
      simpa using he
    rw [h1]
    rw [List.filter_cons_of_pos (by simp)]
    rfl

theorem saveTemplate_any (store : List Template) (t t2 : Template)
    (hname : t2.tname = t.tname) :
    (saveTemplate store t).any (fun u => u.tname = t2.tname) = true := by
  unfold saveTemplate
  by_cases hany : store.any (fun u => u.tname = t.tname) = true
  · rw [if_pos hany]
    rcases List.any_eq_true.mp hany with ⟨x, hx, hxm⟩
    refine List.any_eq_true.mpr ⟨t, ?_, by simp [hname]⟩
    refine List.mem_map.mpr ⟨x, hx, ?_⟩
    rw [if_pos (by simpa using hxm)]
  · rw [if_neg hany]
    exact List.any_eq_true.mpr ⟨t, by simp, by simp [hname]⟩

theorem saveTemplate_length_of_any (store : List Template) (t : Template)
    (hany : store.any (fun u => u.tname = t.tname) = true) :
    (saveTemplate store t).length = store.length := by
  unfold saveTemplate
  rw [if_pos hany, List.length_map]

/-- C9: templates persist as a list under one fixed storage key, keyed
uniquely by name; saving twice under one name leaves exactly one entry with
that name, holding the second save, and does not grow the store. -/
theorem template_save_claim : ∀ (store : List Template) (t1 t2 : Template)
    (storage : String → Option (List Template)),
    UniqueNames store → t1.tname = t2.tname →
    UniqueNames (saveTemplate store t1) ∧
    UniqueNames (saveTemplate (saveTemplate store t1) t2) ∧
    (saveTemplate (saveTemplate store t1) t2).filter
        (fun u => decide (u.tname = t2.tname)) = [t2] ∧
    (saveTemplate (saveTemplate store t1) t2).length =
      (saveTemplate store t1).length ∧
    (∀ k, k ≠ storageKey →
      writeStore storage (saveTemplate store t1) k = storage k) ∧
    writeStore storage (saveTemplate store t1) storageKey =
      some (saveTemplate store t1) := by
  intro store t1 t2 storage hu hname
  have hu1 : UniqueNames (saveTemplate store t1) := saveTemplate_unique store t1 hu
  refine ⟨hu1, saveTemplate_unique _ t2 hu1, saveTemplate_filter _ t2 hu1, ?_, ?_, ?_⟩
  · exact saveTemplate_length_of_any _ t2 (saveTemplate_any store t1 t2 hname.symm)
  · intro k hk
    unfold writeStore
    rw [if_neg hk]
  · unfold writeStore
    rw [if_pos rfl]

theorem template_save_claim_witness :
    (saveTemplate (saveTemplate []
        ⟨"A".data, ⟨"N".data, "V".data, "G".data, "P".data⟩, 1⟩)
        ⟨"A".data, ⟨"N2".data, "V2".data, "G2".data, "P2".data⟩, 2⟩).filter
      (fun u => decide (u.tname = "A".data)) =
      [⟨"A".data, ⟨"N2".data, "V2".data, "G2".data, "P2".data⟩, 2⟩] :=
  (template_save_claim []
    ⟨"A".data, ⟨"N".data, "V".data, "G".data, "P".data⟩, 1⟩
    ⟨"A".data, ⟨"N2".data, "V2".data, "G2".data, "P2".data⟩, 2⟩
    (fun _ => none) List.Pairwise.nil rfl).2.2.1

/-- Abstract model of a loaded pdf-lib form: named text fields with their
values, and named dropdowns with their option labels and selection.
pdf-lib's `getTextField`/`getDropdown` throw on an unknown name; the model
returns an `Except` instead. -/
structure PDFForm where
  textFields : List (String × List Char)
  dropdowns : List (String × (List (List Char) × Option (List Char)))
deriving DecidableEq, Repr

/-- `form.getTextField(name)`: `Except.error` models the thrown exception. -/
def getTextFieldE (form : PDFForm) (fieldName : String) : Except String (List Char) :=
  match form.textFields.find? (fun p => p.1 = fieldName) with
  | some p => Except.ok p.2
  | none => Except.error ("field not found")

/-- Embedding of `setTextField` (src lines 245-252): the body tries the
lookup and the write, and the `catch` swallows a lookup failure, so a
missing field name leaves the form unchanged. -/
def setTextField (form : PDFForm) (fieldName : String) (value : List Char) : PDFForm :=
  match getTextFieldE form fieldName with
  | Except.ok _ =>
    { form with textFields :=
        form.textFields.map (fun p => if p.1 = fieldName then (p.1, value) else p) }
  | Except.error _ => form

/-- `form.getDropdown(name)`, throwing modelled as `Except.error`. -/
def getDropdownE (form : PDFForm) (fieldName : String) :
    Except String (List (List Char) × Option (List Char)) :=
  match form.dropdowns.find? (fun p => p.1 = fieldName) with
  | some p => Except.ok p.2
  | none => Except.error ("dropdown not found")

/-- Embedding of the `MONTHS` table (src lines 25-38). -/
def MONTHS : List (List Char × List Char) :=
  [("1".data, "Januar".data), ("2".data, "Februar".data), ("3".data, "März".data),
   ("4".data, "April".data), ("5".data, "Mai".data), ("6".data, "Juni".data),
   ("7".data, "Juli".data), ("8".data, "August".data), ("9".data, "September".data),
   ("10".data, "Oktober".data), ("11".data, "November".data), ("12".data, "Dezember".data)]

/-- `MONTHS.find(m => m.value === monat)?.label || ''` (src line 263). -/
def monthLabel (monat : List Char) : List Char :=
  match MONTHS.find? (fun m => m.1 = monat) with
  | some m => m.2
  | none => []

/-- JavaScript `haystack.includes(needle)` on strings: `needle` occurs as a
contiguous substring of `haystack`. -/
def listHasInfix (needle : List Char) : List Char → Bool
  | [] => needle.isEmpty
  | c :: rest => needle.isPrefixOf (c :: rest) || listHasInfix needle rest

/-- The dropdown update of src line 267 (`monatField.select(matching)`). -/
def selectMonthCore (form : PDFForm) (options : List (List Char))
    (label : List Char) : PDFForm :=
  match options.find? (fun opt => listHasInfix label opt) with
  | some matching =>
    { form with dropdowns :=
        form.dropdowns.map (fun p =>
          if p.1 = "allg.monat" then (p.1, (p.2.1, some matching)) else p) }
  | none => form

/-- Embedding of the month-dropdown step (src lines 261-271): the whole
step sits in `try { } catch { }`; a missing dropdown leaves the form
unchanged, as does an option list with no option containing the label. -/
def selectMonth (form : PDFForm) (label : List Char) : PDFForm :=
  match getDropdownE form ("allg.monat") with
  | Except.ok (options, _) => selectMonthCore form options label
  | Except.error _ => form

/-- Embedding of the `PersonalInfo` record (src lines 16-23). -/
structure PersonalInfo where
  name : List Char
  vorname : List Char
  gebdat : List Char
  persnr : List Char
  jahr : List Char
  monat : List Char
deriving DecidableEq, Repr

/-- The five personal text-field writes (src lines 254-258). -/
def personalOps (pi : PersonalInfo) : List (String × List Char) :=
  [("allg.name", pi.name), ("allg.vorname", pi.vorname), ("allg.gebdat", pi.gebdat),
   ("allg.persnr", pi.persnr), ("allg.jahr", pi.jahr)]

/-- The per-slot writes of one day (src lines 277-281): emit a field only
for a non-empty (truthy) value. -/
def slotOpsAux (day : Nat) : Nat → List TimeSlot → List (String × List Char)
  | _, [] => []
  | slot, s :: rest =>
    (if s.von ≠ [] then
      [("tab.ein_" ++ toString (slot + 1) ++ "." ++ toString day, s.von)] else []) ++
    (if s.bis ≠ [] then
      [("tab.aus_" ++ toString (slot + 1) ++ "." ++ toString day, s.bis)] else []) ++
    slotOpsAux day (slot + 1) rest

/-- The writes of one day row (src lines 274-293). -/
def dayOps (entries : List DayEntry) (day : Nat) : List (String × List Char) :=
  match entries.get? (day - 1) with
  | none => []
  | some entry =>
    slotOpsAux day 0 entry.slots ++
    (if 0 < calculateDayMinutes entries day then
      [("tab.totall_dd." ++ toString day,
        (toString (calculateDayMinutes entries day)).data)] else []) ++
    (if entry.remark ≠ [] then
      [("tab.bemerkung." ++ toString day, entry.remark)] else [])

/-- The two total fields (src lines 296-297). -/
def totalsOps (entries : List DayEntry) : List (String × List Char) :=
  [("tab.totall_mm", (toString (totalMinutes entries)).data),
   ("totall_dez", (toString (totalHours entries)).data)]

/-- A sequence of best-effort text-field writes. -/
def fillOps (form : PDFForm) (ops : List (String × List Char)) : PDFForm :=
  ops.foldl (fun f p => setTextField f p.1 p.2) form

/-- The field-population phase of `generatePDF` (src lines 254-297), in
source order: personal fields, month dropdown, day fields, totals. -/
def fillForm (form : PDFForm) (pi : PersonalInfo) (entries : List DayEntry) : PDFForm :=
  fillOps (selectMonth (fillOps form (personalOps pi)) (monthLabel pi.monat))
    ((List.range 31).bind (fun k => dayOps entries (k + 1)) ++ totalsOps entries)

/-- The success status line of src line 328. -/
def successStatus (entries : List DayEntry) : String :=
  "PDF generated: " ++ toString (totalMinutes entries) ++ " minutes, " ++
    toString (totalHours entries) ++ " hours"

/-- Embedding of `generatePDF`'s control flow (src lines 231-335): the
template fetch/load and the save are external effects, passed in as
parameters; the surrounding `try/catch` maps any load or save failure to
the status line `"Error generating PDF"`, while per-field failures never
escape because each write is individually caught. -/
def generatePDF (loadResult : Except String PDFForm) (pi : PersonalInfo)
    (entries : List DayEntry) (saveOk : Bool) : Option PDFForm × String :=
  match loadResult with
  | Except.error _ => (none, "Error generating PDF")
  | Except.ok form =>
    if saveOk then (some (fillForm form pi entries), successStatus entries)
    else (none, "Error generating PDF")

theorem setTextField_missing (form : PDFForm) (fieldName : String) (v : List Char)
    (h : getTextFieldE form fieldName = Except.error ("field not found")) :
    setTextField form fieldName v = form := by
  unfold setTextField
  rw [h]

theorem getTextFieldE_error_setTextField (f : PDFForm) (n : String) (v : List Char)
    (fieldName : String)
    (h : getTextFieldE f fieldName = Except.error ("field not found")) :
    getTextFieldE (setTextField f n v) fieldName =
      Except.error ("field not found") := by
  obtain ⟨tfs, dds⟩ := f
  have hnone : tfs.find? (fun p => p.1 = fieldName) = none := by
    unfold getTextFieldE at h
    rcases hf : tfs.find? (fun p => p.1 = fieldName) with _ | p
    · exact hf
    · rw [hf] at h
      simp at h
  have hall := List.find?_eq_none.mp hnone
  unfold setTextField
  rcases hg : getTextFieldE ⟨tfs, dds⟩ n with e | a
  · exact h
  · show getTextFieldE ⟨tfs.map (fun p => if p.1 = n then (p.1, v) else p), dds⟩
      fieldName = Except.error ("field not found")
    unfold getTextFieldE
    have hnone2 : (tfs.map (fun p => if p.1 = n then (p.1, v) else p)).find?
        (fun p => p.1 = fieldName) = none := by
      rw [List.find?_eq_none]
      intro x hx
      rcases List.mem_map.mp hx with ⟨p, hp, rfl⟩
      by_cases hpn : p.1 = n
      · rw [if_pos hpn]
        simpa using hall p hp
      · rw [if_neg hpn]
        exact hall p hp
    rw [hnone2]

theorem getTextFieldE_error_fillOps (ops : List (String × List Char)) :
    ∀ (f : PDFForm) (fieldName : String),
    getTextFieldE f fieldName = Except.error ("field not found") →
    getTextFieldE (fillOps f ops) fieldName = Except.error ("field not found") := by
  induction ops with
  | nil => exact fun f fieldName h => h
  | cons op ops ih =>
    intro f fieldName h
    exact ih _ fieldName (getTextFieldE_error_setTextField f op.1 op.2 fieldName h)

theorem fillOps_append (f : PDFForm) (a b : List (String × List Char)) :
    fillOps f (a ++ b) = fillOps (fillOps f a) b := by
  unfold fillOps
  rw [List.foldl_append]

/-- C8: a missing text field is skipped without aborting, the write
sequence continues past it untouched, a missing dropdown or unmatched
option is likewise skipped, and the export produces the fully filled form
with a failure status exactly when the load or save step throws. -/
theorem export_error_claim : ∀ (form : PDFForm) (pi : PersonalInfo)
    (entries : List DayEntry) (saveOk : Bool),
    (∀ (fieldName : String) (v : List Char),
      getTextFieldE form fieldName = Except.error ("field not found") →
      setTextField form fieldName v = form) ∧
    (∀ (ops1 ops2 : List (String × List Char)) (fieldName : String) (v : List Char),
      getTextFieldE form fieldName = Except.error ("field not found") →
      fillOps form (ops1 ++ (fieldName, v) :: ops2) =
        fillOps (fillOps form ops1) ops2) ∧
    (∀ label : List Char,
      getDropdownE form ("allg.monat") = Except.error ("dropdown not found") →
      selectMonth form label = form) ∧
    (∀ (label : List Char) (options : List (List Char)) (sel : Option (List Char)),
      getDropdownE form ("allg.monat") = Except.ok (options, sel) →
      options.find? (fun opt => listHasInfix label opt) = none →
      selectMonth form label = form) ∧
    generatePDF (Except.ok form) pi entries saveOk =
      (if saveOk then some (fillForm form pi entries) else none,
       if saveOk then successStatus entries else "Error generating PDF") ∧
    generatePDF (Except.error ("load failed")) pi entries saveOk =
      (none, "Error generating PDF") := by
  intro form pi entries saveOk
  refine ⟨setTextField_missing form, ?_, ?_, ?_, ?_, rfl⟩
  · intro ops1 ops2 fieldName v h
    rw [fillOps_append]
    show fillOps (setTextField (fillOps form ops1) fieldName v) ops2 = _
    rw [setTextField_missing _ fieldName v (getTextFieldE_error_fillOps ops1 form fieldName h)]
  · intro label h
    unfold selectMonth
    rw [h]
  · intro label options sel h hopt
    unfold selectMonth
    rw [h]
    show selectMonthCore form options label = form
    unfold selectMonthCore
    rw [hopt]
  · unfold generatePDF
    cases saveOk <;> rfl

theorem export_error_claim_witness :
    setTextField ⟨[("allg.name", [])], []⟩ ("missing") ("x".data) =
      ⟨[("allg.name", [])], []⟩ :=
  (export_error_claim ⟨[("allg.name", [])], []⟩ ⟨[], [], [], [], [], []⟩
    createEmptyDayEntries true).1 ("missing") ("x".data) rfl

end Stunden
